import Mathlib

/-!
Verification of the stateful-transformation pass of
`optimum/exporters/openvino/stateful.py`.

The OpenVINO computation graph is shallowly embedded: a `Model` holds a list
of nodes (a node's id is its position in the list, so freshly created nodes
never collide with existing ones), the ordered list of input-port ids
(`params`, ids of Parameter nodes) and the list of output-port ids.  Graph
mutation becomes explicit state passing, and operations that can raise in
Python (`assert`, `Model.input(name)`, indexing a shape) return
`Except OVError`.  The engine-supplied atomic transform
`apply_make_stateful_transformation` is external to the translated file and
is threaded through as an abstract function argument `tr`.
-/

namespace Stateful

/-- One dimension of a (possibly partially dynamic) shape: either a static
extent or a dynamic dimension with a declared minimum length. -/
inductive Dim
  | fixed (n : Nat)
  | dyn (lo : Nat)
deriving DecidableEq, Repr

/-- `Dimension.min_length` of the OpenVINO API. -/
def Dim.minLength : Dim → Nat
  | .fixed n => n
  | .dyn lo => lo

abbrev Shape := List Dim

/-- Element types (`ov.Type`). -/
inductive OVType
  | i32
  | i64
  | f32
  | f16
  | boolean
deriving DecidableEq, Repr

/-- The operation carried by a node.  Only the operations the pass touches are
distinguished; every other operation is `generic` with its type name. -/
inductive NodeOp
  | param
  | gatherOp
  | constInt (v : Int)
  | constIntVec (v : List Int)
  | constScalarZero (t : OVType)
  | shapeOfOp
  | concatOp (axis : Int)
  | broadcastOp
  | readValue
  | generic (t : String)
deriving DecidableEq, Repr

/-- `Node.get_type_name()`. -/
def NodeOp.typeName : NodeOp → String
  | .param => "Parameter"
  | .gatherOp => "Gather"
  | .constInt _ => "Constant"
  | .constIntVec _ => "Constant"
  | .constScalarZero _ => "Constant"
  | .shapeOfOp => "ShapeOf"
  | .concatOp _ => "Concat"
  | .broadcastOp => "Broadcast"
  | .readValue => "ReadValue"
  | .generic t => t

/-- A graph node: operation, input edges (`args` are ids of the producing
nodes of each input slot), the partial shape, element type and tensor names
of its (single, as used by this pass) output port. -/
structure Node where
  op : NodeOp
  args : List Nat
  shape : Shape
  ety : OVType
  names : List String
deriving DecidableEq, Repr

/-- The computation graph (`ov.Model`): node store plus the ordered input
ports (`ov_model.inputs`, ids of Parameter nodes) and output ports. -/
structure Model where
  nodes : List Node
  params : List Nat
  outputs : List Nat
deriving DecidableEq, Repr

def getNode (m : Model) (i : Nat) : Option Node := m.nodes[i]?

/-- `port.get_names()` of the port with id `i`. -/
def portNames (m : Model) (i : Nat) : List String :=
  match getNode m i with
  | some n => n.names
  | none => []

/-- `model_has_name`: `name` occurs among the names of inputs and outputs. -/
def model_has_name (m : Model) (name : String) : Bool :=
  (m.params ++ m.outputs).any (fun i => (portNames m i).contains name)

/-- `model_has_input`: `name` occurs among the names of the inputs only. -/
def model_has_input (m : Model) (name : String) : Bool :=
  m.params.any (fun i => (portNames m i).contains name)

/-- `model_has_cache_reorder`. -/
def model_has_cache_reorder (m : Model) : Bool :=
  model_has_input m "beam_idx"

/-- An openvino version, as the first three release components. -/
structure OVVersion where
  major : Nat
  minor : Nat
  patch : Nat
deriving DecidableEq, Repr

/-- The errors the pass can raise. -/
inductive OVError
  | assertionFailed
  | lookupFailed (name : String)
  | indexOut
  | unsupportedVersion (v : OVVersion)
deriving DecidableEq, Repr

/-- `ov_model.input(name)`: the first input port carrying `name`; raises when
no input does. -/
def findInput (m : Model) (name : String) : Except OVError Nat :=
  match m.params.find? (fun i => (portNames m i).contains name) with
  | some i => .ok i
  | none => .error (.lookupFailed name)

/-- `port.get_target_inputs()`: every consumer edge `(node id, arg slot)`
currently reading the output of node `src`. -/
def consumers (m : Model) (src : Nat) : List (Nat × Nat) :=
  (m.nodes.enum).flatMap (fun p =>
    (p.2.args.enum).filterMap (fun q => if q.2 = src then some (p.1, q.1) else none))

/-- `consumer.replace_source_output`: point arg slot `k` of node `i` at `g`. -/
def setArgAt (m : Model) (i k g : Nat) : Model :=
  match getNode m i with
  | some n => { m with nodes := m.nodes.set i { n with args := n.args.set k g } }
  | none => m

/-- Redirect every listed consumer edge to read node `g`. -/
def redirect (cons : List (Nat × Nat)) (g : Nat) (m : Model) : Model :=
  cons.foldl (fun acc p => setArgAt acc p.1 p.2 g) m

/-- `op.set_arguments`: replace the whole argument list of node `i`. -/
def setArgsAll (m : Model) (i : Nat) (newArgs : List Nat) : Model :=
  match getNode m i with
  | some n => { m with nodes := m.nodes.set i { n with args := newArgs } }
  | none => m

/-- Output shape of `Gather(data, indices, axis)` for 1-D indices. -/
def gatherShape (data idx : Shape) (axis : Int) : Shape :=
  let a := (if axis < 0 then axis + data.length else axis).toNat
  data.take a ++ idx ++ data.drop (a + 1)

def axisConstNode (gd : Int) : Node :=
  { op := .constInt gd, args := [], shape := [], ety := .i64, names := [] }

def gatherNodeOf (data idx ax : Nat) (sh : Shape) (t : OVType) : Node :=
  { op := .gatherOp, args := [data, idx, ax], shape := sh, ety := t, names := [] }

/-- The new `beam_idx` parameter: i32, 1-D of extent `d`, named "beam_idx". -/
def beamParamNode (d : Dim) : Node :=
  { op := .param, args := [], shape := [d], ety := .i32, names := ["beam_idx"] }

/-- One iteration of the fusion loop of `fuse_cache_reorder`: look up the
key-value input, snapshot its consumers, append the axis constant and the
gather node, and redirect the snapshot to the gather. -/
def fuseOne (gd : Int) (bid : Nat) (m : Model) (nm : String) : Except OVError Model :=
  match findInput m nm with
  | .error e => .error e
  | .ok pid =>
    match getNode m pid, getNode m bid with
    | some pn, some bn =>
      let cons := consumers m pid
      let axId := m.nodes.length
      let m1 : Model := { m with nodes :=
        m.nodes ++ [axisConstNode gd, gatherNodeOf pid bid axId (gatherShape pn.shape bn.shape gd) pn.ety] }
      .ok (redirect cons (axId + 1) m1)
    | _, _ => .error (.lookupFailed nm)

def fuseAll (gd : Int) (bid : Nat) : Model → List String → Except OVError Model
  | m, [] => .ok m
  | m, nm :: rest =>
    match fuseOne gd bid m nm with
    | .error e => .error e
    | .ok m' => fuseAll gd bid m' rest

/-- `fuse_cache_reorder`: assert no port is named "beam_idx", create the
`beam_idx` parameter of length equal to dimension 0 of `input_ids`, append it
to the parameters and to `not_kv_inputs`, then fuse a gather over each
key-value input. -/
def fuse_cache_reorder (m : Model) (not_kv_inputs : List Nat)
    (key_value_input_names : List String) (gather_dim : Int) :
    Except OVError (Model × List Nat) :=
  if model_has_name m "beam_idx" then .error .assertionFailed
  else
    match findInput m "input_ids" with
    | .error e => .error e
    | .ok iid =>
      match getNode m iid with
      | none => .error (.lookupFailed "input_ids")
      | some n =>
        match n.shape[0]? with
        | none => .error .indexOut
        | some d =>
          let bid := m.nodes.length
          let m1 : Model := { m with nodes := m.nodes ++ [beamParamNode d], params := m.params ++ [bid] }
          match fuseAll gather_dim bid m1 key_value_input_names with
          | .error e => .error e
          | .ok m2 => .ok (m2, not_kv_inputs ++ [bid])

def shapeOfNode (src : Nat) (r : Nat) : Node :=
  { op := .shapeOfOp, args := [src], shape := [.fixed r], ety := .i64, names := [] }

/-- `opset13.constant(np.array([v], dtype=np.int64))`: a 1-D i64 constant. -/
def constVecNode (v : Int) : Node :=
  { op := .constIntVec [v], args := [], shape := [.fixed 1], ety := .i64, names := [] }

def scalarConstNode (v : Int) : Node :=
  { op := .constInt v, args := [], shape := [], ety := .i64, names := [] }

def concatNodeOf (ids : List Nat) : Node :=
  { op := .concatOp 0, args := ids, shape := [.fixed ids.length], ety := .i64, names := [] }

def zeroScalarNode (t : OVType) : Node :=
  { op := .constScalarZero t, args := [], shape := [], ety := t, names := [] }

def broadcastNodeOf (z s : Nat) (sh : Shape) (t : OVType) : Node :=
  { op := .broadcastOp, args := [z, s], shape := sh, ety := t, names := [] }

/-- The per-dimension shape components of the initializer: at position `bd`
the live batch node `batchId`, elsewhere a fresh 1-D constant holding the
declared minimum length; returns the new constant nodes in creation order and
the per-position node ids, allocating fresh ids from `next`. -/
def dimNodes (batchId bd : Nat) : Nat → Nat → List Nat → List Node × List Nat
  | _, _, [] => ([], [])
  | next, j, v :: rest =>
    if j = bd then
      let r := dimNodes batchId bd next (j + 1) rest
      (r.1, batchId :: r.2)
    else
      let r := dimNodes batchId bd (next + 1) (j + 1) rest
      (constVecNode (Int.ofNat v) :: r.1, next :: r.2)

/-- One iteration of the `ReadValue` loop of `build_state_initializer`. -/
def initOne (batchId bd : Nat) (m : Model) (rid : Nat) : Except OVError Model :=
  match getNode m rid with
  | none => .ok m
  | some rn =>
    if bd < rn.shape.length then
      let mins := rn.shape.map Dim.minLength
      let r := dimNodes batchId bd m.nodes.length 0 mins
      let concatId := m.nodes.length + r.1.length
      let m1 : Model := { m with nodes :=
        m.nodes ++ r.1 ++ [concatNodeOf r.2, zeroScalarNode rn.ety,
          broadcastNodeOf (concatId + 1) concatId rn.shape rn.ety] }
      .ok (setArgsAll m1 rid [concatId + 2])
    else .error .indexOut

def initAll (batchId bd : Nat) : Model → List Nat → Except OVError Model
  | m, [] => .ok m
  | m, rid :: rest =>
    match initOne batchId bd m rid with
    | .error e => .error e
    | .ok m' => initAll batchId bd m' rest

/-- The ids of every node whose type name is "ReadValue". -/
def readValueIds (m : Model) : List Nat :=
  (m.nodes.enum).filterMap (fun p => if p.2.op.typeName = "ReadValue" then some p.1 else none)

/-- `build_state_initializer`: build the live batch extent as
`Gather(ShapeOf(input_ids), [0], 0)` and give every `ReadValue` node a
zero-valued `Broadcast` initializer over the concatenation of its
minimum-length dimensions with the batch node substituted at `batch_dim`. -/
def build_state_initializer (m : Model) (batch_dim : Nat) : Except OVError Model :=
  match findInput m "input_ids" with
  | .error e => .error e
  | .ok iid =>
    match getNode m iid with
    | none => .error (.lookupFailed "input_ids")
    | some n =>
      let L := m.nodes.length
      let m1 : Model := { m with nodes := m.nodes ++
        [shapeOfNode iid n.shape.length, constVecNode 0, scalarConstNode 0,
         gatherNodeOf L (L + 1) (L + 2) [.fixed 1] .i64] }
      initAll (L + 3) batch_dim m1 (readValueIds m)

/-- The diagnostic printed for a non-key-value input of unexpected rank. -/
def warnMsg (nm : String) : String :=
  "[ WARNING ] Rank of " ++ nm ++ " input of the model is not 2, batch size is not set"

/-- Pin one non-key-value input: rank ≤ 2 gets dimension 0 overwritten with
the pinned batch, higher rank is left alone and a warning is recorded. -/
def pinNotKvOne (b : Nat) (st : Model × List String) (pid : Nat) :
    Except OVError (Model × List String) :=
  match getNode st.1 pid with
  | none => .error (.lookupFailed "port")
  | some n =>
    if n.shape.length ≤ 2 then
      match n.shape with
      | [] => .error .indexOut
      | _ => .ok ({ st.1 with nodes := st.1.nodes.set pid { n with shape := n.shape.set 0 (.fixed b) } }, st.2)
    else
      match n.names with
      | [] => .error (.lookupFailed "any_name")
      | nm :: _ => .ok (st.1, st.2 ++ [warnMsg nm])

def pinNotKvAll (b : Nat) : Model × List String → List Nat → Except OVError (Model × List String)
  | st, [] => .ok st
  | st, pid :: rest =>
    match pinNotKvOne b st pid with
    | .error e => .error e
    | .ok st' => pinNotKvAll b st' rest

/-- Pin one key-value input: overwrite its `batch_dim` extent with `v`. -/
def pinKvOne (v bd : Nat) (m : Model) (nm : String) : Except OVError Model :=
  match findInput m nm with
  | .error e => .error e
  | .ok pid =>
    match getNode m pid with
    | none => .error (.lookupFailed nm)
    | some n =>
      if bd < n.shape.length then
        .ok { m with nodes := m.nodes.set pid { n with shape := n.shape.set bd (.fixed v) } }
      else .error .indexOut

def pinKvAll (v bd : Nat) : Model → List String → Except OVError Model
  | m, [] => .ok m
  | m, nm :: rest =>
    match pinKvOne v bd m nm with
    | .error e => .error e
    | .ok m' => pinKvAll v bd m' rest

/-- `make_stateful`: build the positional input→output map, optionally pin
batch-like dimensions, hand the map to the engine's stateful transform `tr`,
and in the dynamic-batch case run `build_state_initializer`. -/
def make_stateful (tr : Model → List (String × String) → Model) (ov_model : Model)
    (not_kv_inputs : List Nat) (key_value_input_names key_value_output_names : List String)
    (batch_dim num_attention_heads : Nat) (num_beams_and_batch : Option Nat) :
    Except OVError (Model × List String) :=
  let input_output_map := key_value_input_names.zip key_value_output_names
  match num_beams_and_batch with
  | none =>
    match build_state_initializer (tr ov_model input_output_map) batch_dim with
    | .error e => .error e
    | .ok m3 => .ok (m3, [])
  | some b =>
    match pinNotKvAll b (ov_model, []) not_kv_inputs with
    | .error e => .error e
    | .ok st =>
      match pinKvAll (b * num_attention_heads) batch_dim st.1 (input_output_map.map Prod.fst) with
      | .error e => .error e
      | .ok m2 => .ok (tr m2 input_output_map, st.2)

/-- Modelled from the spec: the comparison performed by
`is_openvino_version("<=", "2023.2")` (defined in
`optimum.intel.utils.import_utils`, outside the embedded file): the installed
version is at or below the fixed minimum threshold, release components
compared lexicographically. -/
def ov_version_le (a b : OVVersion) : Bool :=
  Nat.blt a.major b.major ||
    (a.major == b.major &&
      (Nat.blt a.minor b.minor || (a.minor == b.minor && Nat.ble a.patch b.patch)))

def is_openvino_version_le_2023_2 (v : OVVersion) : Bool :=
  ov_version_le v ⟨2023, 2, 0⟩

/-- `raise_if_openvino_is_too_old`: the ValueError carries the detected
version. -/
def raise_if_openvino_is_too_old (v : OVVersion) : Except OVError Unit :=
  if is_openvino_version_le_2023_2 v then .error (.unsupportedVersion v) else .ok ()

/-- The model metadata `patch_stateful` consumes. -/
structure HFModel where
  key_value_input_names : List String
  key_value_output_names : List String
  model_type : String
  num_attention_heads : Nat

/-- The non-key-value input classification of `patch_stateful`: inputs none
of whose names is a key-value input name. -/
def not_kv_of (m : Model) (kvIn : List String) : List Nat :=
  m.params.filter (fun pid => !(portNames m pid).any (fun nm => kvIn.contains nm))

/-- `patch_stateful`: version gate, non-key-value classification, model-family
dispatch of `batch_dim` and `num_attention_heads`, cache-reorder fusion, then
statefulization with a fully dynamic batch. -/
def patch_stateful (tr : Model → List (String × String) → Model)
    (v : OVVersion) (model : HFModel) (ov_model : Model) :
    Except OVError (Model × List String) :=
  match raise_if_openvino_is_too_old v with
  | .error e => .error e
  | .ok _ =>
    let not_kv_inputs := not_kv_of ov_model model.key_value_input_names
    let batch_dim : Nat := if model.model_type = "chatglm" then 1 else 0
    match fuse_cache_reorder ov_model not_kv_inputs model.key_value_input_names (Int.ofNat batch_dim) with
    | .error e => .error e
    | .ok p =>
      let num_attention_heads := if model.model_type = "bloom" then model.num_attention_heads else 1
      make_stateful tr p.1 p.2 model.key_value_input_names model.key_value_output_names
        batch_dim num_attention_heads none

/-! ### Basic graph lemmas -/

/-- The id feeding arg slot `k` of node `i`, when both exist. -/
def argAt (m : Model) (i k : Nat) : Option Nat :=
  (getNode m i).bind (fun n => n.args[k]?)

theorem getNode_mk (ns : List Node) (ps os : List Nat) (i : Nat) :
    getNode ⟨ns, ps, os⟩ i = ns[i]? := rfl

theorem getNode_lt_length {m : Model} {i : Nat} {n : Node}
    (h : getNode m i = some n) : i < m.nodes.length := by
  have := List.getElem?_eq_some.mp h
  exact this.1

theorem mem_consumers {m : Model} {src i k : Nat} :
    (i, k) ∈ consumers m src ↔ argAt m i k = some src := by
  unfold consumers argAt getNode
  simp only [List.mem_flatMap, List.mem_filterMap]
  constructor
  · rintro ⟨⟨i', n⟩, hp, ⟨k', a⟩, hq1, hq2⟩
    split at hq2
    · next ha =>
      obtain ⟨hik, hkk⟩ := Prod.mk.inj (Option.some.inj hq2)
      subst hik; subst hkk; subst ha
      rw [List.mk_mem_enum_iff_getElem?] at hp hq1
      rw [hp]
      exact hq1
    · exact absurd hq2 (Option.noConfusion)
  · intro h
    match hn : m.nodes[i]? with
    | none => rw [hn] at h; exact absurd h (Option.noConfusion)
    | some n =>
      rw [hn] at h
      replace h : n.args[k]? = some src := h
      refine ⟨(i, n), ?_, (k, src), ?_, ?_⟩
      · rw [List.mk_mem_enum_iff_getElem?]; exact hn
      · rw [List.mk_mem_enum_iff_getElem?]; exact h
      · simp

theorem setArgAt_params (m : Model) (i k g : Nat) : (setArgAt m i k g).params = m.params := by
  unfold setArgAt; split <;> rfl

theorem setArgAt_outputs (m : Model) (i k g : Nat) : (setArgAt m i k g).outputs = m.outputs := by
  unfold setArgAt; split <;> rfl

theorem setArgAt_length (m : Model) (i k g : Nat) :
    (setArgAt m i k g).nodes.length = m.nodes.length := by
  unfold setArgAt; split
  · simp
  · rfl

theorem getNode_setArgAt_ne (m : Model) {i : Nat} (k g : Nat) {j : Nat} (h : j ≠ i) :
    getNode (setArgAt m i k g) j = getNode m j := by
  unfold setArgAt
  split
  · simp only [getNode]
    exact List.getElem?_set_ne (fun hh => h hh.symm)
  · rfl

theorem setArgAt_of_none {m : Model} {i : Nat} (k g : Nat)
    (h : getNode m i = none) : setArgAt m i k g = m := by
  unfold setArgAt
  rw [h]

theorem getNode_setArgAt_self {m : Model} {i : Nat} {n : Node} (k g : Nat)
    (h : getNode m i = some n) :
    getNode (setArgAt m i k g) i = some { n with args := n.args.set k g } := by
  unfold setArgAt
  rw [h]
  show (m.nodes.set i _)[i]? = _
  exact List.getElem?_set_self (getNode_lt_length h)

theorem argAt_setArgAt_ne {m : Model} {i k : Nat} (g : Nat) {i' k' : Nat}
    (h : (i', k') ≠ (i, k)) :
    argAt (setArgAt m i k g) i' k' = argAt m i' k' := by
  by_cases hi : i' = i
  · subst hi
    have hk : k' ≠ k := fun hk => h (by rw [hk])
    match hn : getNode m i' with
    | none => rw [setArgAt_of_none k g hn]
    | some n =>
      unfold argAt
      rw [getNode_setArgAt_self k g hn, hn]
      show (n.args.set k g)[k']? = n.args[k']?
      exact List.getElem?_set_ne hk.symm
  · unfold argAt
    rw [getNode_setArgAt_ne m k g hi]

theorem argAt_setArgAt_self {m : Model} {i k : Nat} (g : Nat) {a : Nat}
    (h : argAt m i k = some a) :
    argAt (setArgAt m i k g) i k = some g := by
  unfold argAt at h ⊢
  match hn : getNode m i with
  | none => rw [hn] at h; exact absurd h (Option.noConfusion)
  | some n =>
    rw [hn] at h
    replace h : n.args[k]? = some a := h
    rw [getNode_setArgAt_self k g hn]
    show (n.args.set k g)[k]? = some g
    exact List.getElem?_set_self (List.getElem?_eq_some.mp h).1

theorem redirect_cons_eq (c : Nat × Nat) (rest : List (Nat × Nat)) (g : Nat) (m : Model) :
    redirect (c :: rest) g m = redirect rest g (setArgAt m c.1 c.2 g) := rfl

theorem redirect_params (cons : List (Nat × Nat)) (g : Nat) (m : Model) :
    (redirect cons g m).params = m.params := by
  induction cons generalizing m with
  | nil => rfl
  | cons c rest ih => rw [redirect_cons_eq, ih, setArgAt_params]

theorem redirect_outputs (cons : List (Nat × Nat)) (g : Nat) (m : Model) :
    (redirect cons g m).outputs = m.outputs := by
  induction cons generalizing m with
  | nil => rfl
  | cons c rest ih => rw [redirect_cons_eq, ih, setArgAt_outputs]

theorem redirect_length (cons : List (Nat × Nat)) (g : Nat) (m : Model) :
    (redirect cons g m).nodes.length = m.nodes.length := by
  induction cons generalizing m with
  | nil => rfl
  | cons c rest ih => rw [redirect_cons_eq, ih, setArgAt_length]

theorem getNode_redirect_of_no_slot {cons : List (Nat × Nat)} {g : Nat} {m : Model} {j : Nat}
    (h : ∀ k, (j, k) ∉ cons) :
    getNode (redirect cons g m) j = getNode m j := by
  induction cons generalizing m with
  | nil => rfl
  | cons c rest ih =>
    rw [redirect_cons_eq]
    rw [ih (fun k hk => h k (List.mem_cons_of_mem c hk))]
    refine getNode_setArgAt_ne m c.2 g ?_
    intro hj
    exact h c.2 (by rw [hj]; exact List.mem_cons_self c rest)

theorem argAt_redirect_not_mem {cons : List (Nat × Nat)} {g : Nat} {m : Model} {i k : Nat}
    (h : (i, k) ∉ cons) :
    argAt (redirect cons g m) i k = argAt m i k := by
  induction cons generalizing m with
  | nil => rfl
  | cons c rest ih =>
    rw [redirect_cons_eq]
    rw [ih (fun hk => h (List.mem_cons_of_mem c hk))]
    refine argAt_setArgAt_ne g ?_
    intro hik
    exact h (hik ▸ List.mem_cons_self c rest)

theorem argAt_redirect_mem {cons : List (Nat × Nat)} {g : Nat} {m : Model} {i k : Nat}
    (h : (i, k) ∈ cons) (hs : (argAt m i k).isSome) :
    argAt (redirect cons g m) i k = some g := by
  induction cons generalizing m with
  | nil => exact absurd h (List.not_mem_nil _)
  | cons c rest ih =>
    rw [redirect_cons_eq]
    by_cases hmem : (i, k) ∈ rest
    · refine ih hmem ?_
      by_cases hik : (i, k) = (c.1, c.2)
      · obtain ⟨hi, hk⟩ := Prod.mk.inj hik
        subst hi; subst hk
        obtain ⟨a, ha⟩ := Option.isSome_iff_exists.mp hs
        rw [argAt_setArgAt_self g ha]
        rfl
      · rw [argAt_setArgAt_ne g hik]
        exact hs
    · have hc : (i, k) = c := by
        rcases List.mem_cons.mp h with h' | h'
        · exact h'
        · exact absurd h' hmem
      rw [argAt_redirect_not_mem hmem]
      obtain ⟨a, ha⟩ := Option.isSome_iff_exists.mp hs
      subst hc
      exact argAt_setArgAt_self g ha

/-! ### Metadata-preserving graph extension -/

/-- `m'` extends `m` without touching any existing node's operation, shape,
element type or names, without renumbering the input/output port lists, and
giving no names to nodes at previously vacant ids. -/
structure MetaExt (m m' : Model) : Prop where
  params_eq : m'.params = m.params
  outputs_eq : m'.outputs = m.outputs
  node_meta : ∀ i n, getNode m i = some n → ∃ n', getNode m' i = some n' ∧
    n'.op = n.op ∧ n'.shape = n.shape ∧ n'.ety = n.ety ∧ n'.names = n.names
  vacant : ∀ i, getNode m i = none → portNames m' i = []

theorem MetaExt.refl (m : Model) : MetaExt m m :=
  ⟨rfl, rfl, fun _ n h => ⟨n, h, rfl, rfl, rfl, rfl⟩,
    fun i h => by unfold portNames; rw [h]⟩

theorem MetaExt.trans {a b c : Model} (h1 : MetaExt a b) (h2 : MetaExt b c) : MetaExt a c := by
  refine ⟨h2.params_eq.trans h1.params_eq, h2.outputs_eq.trans h1.outputs_eq, ?_, ?_⟩
  · intro i n h
    obtain ⟨n', hb, h1o, h1s, h1e, h1n⟩ := h1.node_meta i n h
    obtain ⟨n'', hc, h2o, h2s, h2e, h2n⟩ := h2.node_meta i n' hb
    exact ⟨n'', hc, h2o.trans h1o, h2s.trans h1s, h2e.trans h1e, h2n.trans h1n⟩
  · intro i h
    match hb : getNode b i with
    | none => exact h2.vacant i hb
    | some n' =>
      have hnames : n'.names = [] := by
        have := h1.vacant i h
        unfold portNames at this
        rw [hb] at this
        exact this
      obtain ⟨n'', hc, _, _, _, h2n⟩ := h2.node_meta i n' hb
      unfold portNames
      rw [hc]
      show n''.names = []
      rw [h2n, hnames]

theorem MetaExt.portNames_eq {m m' : Model} (h : MetaExt m m') (i : Nat) :
    portNames m' i = portNames m i := by
  match hn : getNode m i with
  | none =>
    rw [h.vacant i hn]
    unfold portNames
    rw [hn]
  | some n =>
    obtain ⟨n', hn', _, _, _, hnm⟩ := h.node_meta i n hn
    unfold portNames
    rw [hn, hn']
    show n'.names = n.names
    exact hnm

theorem find?_congr_mem {α : Type} {p q : α → Bool} :
    ∀ {l : List α}, (∀ a ∈ l, p a = q a) → l.find? p = l.find? q
  | [], _ => rfl
  | a :: l, h => by
    rw [List.find?_cons, List.find?_cons, h a (List.mem_cons_self a l)]
    split
    · rfl
    · exact find?_congr_mem (fun b hb => h b (List.mem_cons_of_mem a hb))

theorem any_congr_mem {α : Type} {p q : α → Bool} :
    ∀ {l : List α}, (∀ a ∈ l, p a = q a) → l.any p = l.any q
  | [], _ => rfl
  | a :: l, h => by
    rw [List.any_cons, List.any_cons, h a (List.mem_cons_self a l),
      any_congr_mem (fun b hb => h b (List.mem_cons_of_mem a hb))]

theorem MetaExt.findInput_eq {m m' : Model} (h : MetaExt m m') (nm : String) :
    findInput m' nm = findInput m nm := by
  unfold findInput
  rw [h.params_eq, find?_congr_mem (fun i _ => by rw [h.portNames_eq i])]

theorem MetaExt.model_has_name_eq {m m' : Model} (h : MetaExt m m') (nm : String) :
    model_has_name m' nm = model_has_name m nm := by
  unfold model_has_name
  rw [h.params_eq, h.outputs_eq, any_congr_mem (fun i _ => by rw [h.portNames_eq i])]

theorem MetaExt.model_has_input_eq {m m' : Model} (h : MetaExt m m') (nm : String) :
    model_has_input m' nm = model_has_input m nm := by
  unfold model_has_input
  rw [h.params_eq, any_congr_mem (fun i _ => by rw [h.portNames_eq i])]

theorem getNode_append_lt {m : Model} {l : List Node} {ps os : List Nat} {i : Nat}
    (h : i < m.nodes.length) :
    getNode ⟨m.nodes ++ l, ps, os⟩ i = getNode m i := by
  unfold getNode
  exact List.getElem?_append_left h

theorem metaExt_append {m : Model} {l : List Node}
    (hnames : ∀ n ∈ l, n.names = []) :
    MetaExt m ⟨m.nodes ++ l, m.params, m.outputs⟩ := by
  refine ⟨rfl, rfl, ?_, ?_⟩
  · intro i n h
    refine ⟨n, ?_, rfl, rfl, rfl, rfl⟩
    rw [getNode_append_lt (getNode_lt_length h)]
    exact h
  · intro i h
    unfold portNames
    match hn : getNode ⟨m.nodes ++ l, m.params, m.outputs⟩ i with
    | none => rfl
    | some n =>
      refine hnames n ?_
      unfold getNode at h hn
      have hi : m.nodes.length ≤ i := by
        by_contra hlt
        rw [List.getElem?_append_left (Nat.lt_of_not_le hlt)] at hn
        rw [h] at hn
        exact Option.noConfusion hn
      rw [List.getElem?_append_right hi] at hn
      obtain ⟨hlt, hget⟩ := List.getElem?_eq_some.mp hn
      exact hget ▸ List.getElem_mem hlt

theorem metaExt_setArgAt (m : Model) (i k g : Nat) : MetaExt m (setArgAt m i k g) := by
  refine ⟨setArgAt_params m i k g, setArgAt_outputs m i k g, ?_, ?_⟩
  · intro j n h
    by_cases hj : j = i
    · subst hj
      exact ⟨{ n with args := n.args.set k g }, getNode_setArgAt_self k g h, rfl, rfl, rfl, rfl⟩
    · exact ⟨n, by rw [getNode_setArgAt_ne m k g hj]; exact h, rfl, rfl, rfl, rfl⟩
  · intro j h
    unfold portNames
    by_cases hj : j = i
    · subst hj
      rw [setArgAt_of_none k g h, h]
    · rw [getNode_setArgAt_ne m k g hj, h]

theorem metaExt_redirect (cons : List (Nat × Nat)) (g : Nat) (m : Model) :
    MetaExt m (redirect cons g m) := by
  induction cons generalizing m with
  | nil => exact MetaExt.refl m
  | cons c rest ih =>
    rw [redirect_cons_eq]
    exact (metaExt_setArgAt m c.1 c.2 g).trans (ih _)

theorem metaExt_setArgsAll (m : Model) (i : Nat) (newArgs : List Nat) :
    MetaExt m (setArgsAll m i newArgs) := by
  unfold setArgsAll
  match hn : getNode m i with
  | none => exact MetaExt.refl m
  | some n =>
    refine ⟨rfl, rfl, ?_, ?_⟩
    · intro j nj h
      by_cases hj : j = i
      · subst hj
        rw [hn] at h
        injection h with h
        subst h
        refine ⟨{ n with args := newArgs }, ?_, rfl, rfl, rfl, rfl⟩
        unfold getNode
        exact List.getElem?_set_self (getNode_lt_length hn)
      · refine ⟨nj, ?_, rfl, rfl, rfl, rfl⟩
        unfold getNode
        rw [List.getElem?_set_ne (fun hh => hj hh.symm)]
        exact h
    · intro j h
      unfold portNames getNode
      by_cases hj : j = i
      · subst hj
        rw [h] at hn
        exact Option.noConfusion hn
      · rw [List.getElem?_set_ne (fun hh => hj hh.symm)]
        unfold getNode at h
        rw [h]

/-! ### findInput and append lemmas -/

theorem findInput_ok {m : Model} {nm : String} {pid : Nat}
    (h : findInput m nm = .ok pid) :
    pid ∈ m.params ∧ (portNames m pid).contains nm = true := by
  unfold findInput at h
  match hf : m.params.find? (fun i => (portNames m i).contains nm) with
  | some i =>
    rw [hf] at h
    injection h with h
    subst h
    exact ⟨List.mem_of_find?_eq_some hf, List.find?_some (p := fun i => (portNames m i).contains nm) hf⟩
  | none => rw [hf] at h; exact absurd h (Except.noConfusion)

theorem findInput_ok_getNode {m : Model} {nm : String} {pid : Nat}
    (h : findInput m nm = .ok pid) :
    ∃ n, getNode m pid = some n ∧ n.names.contains nm = true := by
  obtain ⟨-, hc⟩ := findInput_ok h
  unfold portNames at hc
  match hn : getNode m pid with
  | none => rw [hn] at hc; exact absurd hc (by simp)
  | some n => rw [hn] at hc; exact ⟨n, rfl, hc⟩

theorem getNode_none_of_le {m : Model} {i : Nat} (h : m.nodes.length ≤ i) :
    getNode m i = none :=
  List.getElem?_eq_none h

theorem argAt_of_some {m : Model} {i : Nat} {n : Node} (k : Nat)
    (h : getNode m i = some n) : argAt m i k = n.args[k]? := by
  unfold argAt; rw [h]; rfl

theorem argAt_of_none {m : Model} {i : Nat} (k : Nat)
    (h : getNode m i = none) : argAt m i k = none := by
  unfold argAt; rw [h]; rfl

theorem getNode_append_at {m : Model} {l : List Node} {ps os : List Nat} {j : Nat}
    (_h : j < l.length) :
    getNode ⟨m.nodes ++ l, ps, os⟩ (m.nodes.length + j) = l[j]? := by
  unfold getNode
  rw [List.getElem?_append_right (Nat.le_add_right _ _)]
  congr 1
  omega

theorem argAt_append_lt {m : Model} {l : List Node} {ps os : List Nat} {i k : Nat}
    (h : i < m.nodes.length) :
    argAt ⟨m.nodes ++ l, ps, os⟩ i k = argAt m i k := by
  unfold argAt
  rw [getNode_append_lt h]

theorem argAt_append_argfree {m : Model} {l : List Node} {ps os : List Nat}
    (hargs : ∀ n ∈ l, n.args = []) (i k : Nat) :
    argAt ⟨m.nodes ++ l, ps, os⟩ i k = argAt m i k := by
  by_cases hi : i < m.nodes.length
  · exact argAt_append_lt hi
  · rw [argAt_of_none k (getNode_none_of_le (Nat.le_of_not_lt hi))]
    match hn : getNode ⟨m.nodes ++ l, ps, os⟩ i with
    | none => rw [argAt_of_none k hn]
    | some n =>
      rw [argAt_of_some k hn]
      have : n ∈ l := by
        unfold getNode at hn
        rw [List.getElem?_append_right (Nat.le_of_not_lt hi)] at hn
        obtain ⟨hlt, hget⟩ := List.getElem?_eq_some.mp hn
        exact hget ▸ List.getElem_mem hlt
      rw [hargs n this]
      rfl

/-! ### fuseOne / fuseAll -/

theorem fuseOne_eq {m : Model} {nm : String} {pid : Nat} {pn bn : Node} (gd : Int) (bid : Nat)
    (h1 : findInput m nm = .ok pid) (h2 : getNode m pid = some pn) (h3 : getNode m bid = some bn) :
    fuseOne gd bid m nm = .ok (redirect (consumers m pid) (m.nodes.length + 1)
      ⟨m.nodes ++ [axisConstNode gd,
        gatherNodeOf pid bid m.nodes.length (gatherShape pn.shape bn.shape gd) pn.ety],
       m.params, m.outputs⟩) := by
  unfold fuseOne
  simp only [h1, h2, h3]

theorem fuseOne_metaExt {gd : Int} {bid : Nat} {m m' : Model} {nm : String}
    (h : fuseOne gd bid m nm = .ok m') : MetaExt m m' := by
  unfold fuseOne at h
  match h1 : findInput m nm with
  | .error e => simp only [h1] at h; exact Except.noConfusion h
  | .ok pid =>
    simp only [h1] at h
    match h2 : getNode m pid, h3 : getNode m bid with
    | some pn, some bn =>
      simp only [h2, h3] at h
      injection h with h
      subst h
      refine MetaExt.trans (metaExt_append ?_) (metaExt_redirect _ _ _)
      intro n hn
      rcases List.mem_cons.mp hn with rfl | hn
      · rfl
      rcases List.mem_cons.mp hn with rfl | hn
      · rfl
      · exact absurd hn (List.not_mem_nil n)
    | some pn, none => simp only [h2, h3] at h; exact Except.noConfusion h
    | none, some bn => simp only [h2, h3] at h; exact Except.noConfusion h
    | none, none => simp only [h2, h3] at h; exact Except.noConfusion h

theorem fuseAll_metaExt {gd : Int} {bid : Nat} : ∀ {names : List String} {m m' : Model},
    fuseAll gd bid m names = .ok m' → MetaExt m m'
  | [], m, m', h => by
    unfold fuseAll at h
    injection h with h
    subst h
    exact MetaExt.refl m
  | nm :: rest, m, m', h => by
    unfold fuseAll at h
    match h1 : fuseOne gd bid m nm with
    | .error e => simp only [h1] at h; exact Except.noConfusion h
    | .ok mc =>
      simp only [h1] at h
      exact (fuseOne_metaExt h1).trans (fuseAll_metaExt h)

theorem mem_of_getElem? {α : Type} {l : List α} {i : Nat} {a : α} (h : l[i]? = some a) :
    a ∈ l := by
  obtain ⟨hlt, hget⟩ := List.getElem?_eq_some.mp h
  exact hget ▸ List.getElem_mem hlt

/-- After one fusion step for the key-value input `pid'`, an arg slot feeds a
given id `v` distinct from `pid'`, `bid` and the fresh ids iff it already did
before the step. -/
theorem step_argAt_iff (mc : Model) (pid' bid : Nat) (an gn : Node)
    (han : an.args = []) (hgn : gn.args = [pid', bid, mc.nodes.length])
    {v : Nat} (hv1 : v ≠ pid') (hv2 : v ≠ bid) (hv3 : v < mc.nodes.length) (i k : Nat) :
    argAt (redirect (consumers mc pid') (mc.nodes.length + 1)
        ⟨mc.nodes ++ [an, gn], mc.params, mc.outputs⟩) i k = some v
      ↔ argAt mc i k = some v := by
  by_cases hmem : (i, k) ∈ consumers mc pid'
  · have hA : argAt mc i k = some pid' := mem_consumers.mp hmem
    have hns : ∃ n, getNode mc i = some n := by
      unfold argAt at hA
      match hn : getNode mc i with
      | none => rw [hn] at hA; exact absurd hA (Option.noConfusion)
      | some n => exact ⟨n, rfl⟩
    obtain ⟨n, hn⟩ := hns
    have hiL : i < mc.nodes.length := getNode_lt_length hn
    have hApp : argAt ⟨mc.nodes ++ [an, gn], mc.params, mc.outputs⟩ i k = some pid' := by
      rw [argAt_append_lt hiL]; exact hA
    have hred := argAt_redirect_mem (g := mc.nodes.length + 1) hmem (by rw [hApp]; rfl)
    rw [hred, hA]
    constructor
    · intro hh
      injection hh with hh
      omega
    · intro hh
      injection hh with hh
      exact absurd hh.symm hv1
  · rw [argAt_redirect_not_mem hmem]
    by_cases hiL : i < mc.nodes.length
    · rw [argAt_append_lt hiL]
    · have hmcnone : argAt mc i k = none :=
        argAt_of_none k (getNode_none_of_le (Nat.le_of_not_lt hiL))
      rw [hmcnone]
      have hL := Nat.le_of_not_lt hiL
      constructor
      · intro hh
        exfalso
        rcases Nat.lt_or_ge i (mc.nodes.length + 2) with hlt2 | hge2
        · rcases Nat.lt_or_ge i (mc.nodes.length + 1) with hlt1 | hge1
          · -- i = length: the axis constant, no args
            have hieq : i = mc.nodes.length := by omega
            subst hieq
            have hga : getNode ⟨mc.nodes ++ [an, gn], mc.params, mc.outputs⟩
                mc.nodes.length = some an := by
              have := @getNode_append_at mc [an, gn] mc.params mc.outputs 0 (by simp)
              rw [Nat.add_zero] at this
              rw [this]
              rfl
            rw [argAt_of_some k hga, han] at hh
            exact absurd hh (by simp)
          · -- i = length + 1: the gather node
            have hieq : i = mc.nodes.length + 1 := by omega
            subst hieq
            have hga : getNode ⟨mc.nodes ++ [an, gn], mc.params, mc.outputs⟩
                (mc.nodes.length + 1) = some gn := by
              have := @getNode_append_at mc [an, gn] mc.params mc.outputs 1 (by simp)
              rw [this]
              rfl
            rw [argAt_of_some k hga, hgn] at hh
            rcases k with _ | _ | _ | nk
            · exact hv1 (Option.some.inj hh).symm
            · exact hv2 (Option.some.inj hh).symm
            · simp only [List.getElem?_cons_succ, List.getElem?_cons_zero] at hh
              exact absurd (Option.some.inj hh).symm (by omega)
            · exact absurd hh (by simp)
        · have : getNode ⟨mc.nodes ++ [an, gn], mc.params, mc.outputs⟩ i = none := by
            refine getNode_none_of_le ?_
            simp only [List.length_append, List.length_cons, List.length_nil]
            omega
          rw [argAt_of_none k this] at hh
          exact absurd hh (Option.noConfusion)
      · intro hh
        exact absurd hh (Option.noConfusion)

/-- A step for `pid'` leaves untouched every node none of whose args is
`pid'`. -/
theorem step_getNode (mc : Model) (pid' g : Nat) (l : List Node)
    {j : Nat} {n : Node} (hj : getNode mc j = some n) (hargs : pid' ∉ n.args) :
    getNode (redirect (consumers mc pid') g ⟨mc.nodes ++ l, mc.params, mc.outputs⟩) j
      = some n := by
  have hjL : j < mc.nodes.length := getNode_lt_length hj
  rw [getNode_redirect_of_no_slot ?_]
  · rw [getNode_append_lt hjL]
    exact hj
  · intro k hk
    have hA := mem_consumers.mp hk
    rw [argAt_of_some k hj] at hA
    exact hargs (mem_of_getElem? hA)

/-- The conclusion recorded for a fused consumer edge: the slot now reads a
gather whose data is the original port `pid`, whose indices are the beam
parameter `bid` and whose axis constant carries `gd`; the fresh ids are above
`bid`. -/
def EdgeGathered (m : Model) (pid bid : Nat) (gd : Int) (i k : Nat) : Prop :=
  ∃ gid gn axid, bid < gid ∧ bid < axid ∧ argAt m i k = some gid ∧
    getNode m gid = some gn ∧ gn.op = .gatherOp ∧ gn.args = [pid, bid, axid] ∧
    getNode m axid = some (axisConstNode gd)

theorem fuseOne_establish {gd : Int} {bid : Nat} {mc mc' : Model} {nm : String}
    {pid : Nat} {pn bn : Node}
    (h1 : findInput mc nm = .ok pid) (h2 : getNode mc pid = some pn)
    (h3 : getNode mc bid = some bn)
    (hok : fuseOne gd bid mc nm = .ok mc') :
    ∀ i k, (i, k) ∈ consumers mc pid → EdgeGathered mc' pid bid gd i k := by
  rw [fuseOne_eq gd bid h1 h2 h3] at hok
  injection hok with hok
  subst hok
  intro i k hmem
  have hbidL : bid < mc.nodes.length := getNode_lt_length h3
  have hga : getNode ⟨mc.nodes ++ [axisConstNode gd,
      gatherNodeOf pid bid mc.nodes.length (gatherShape pn.shape bn.shape gd) pn.ety],
      mc.params, mc.outputs⟩ (mc.nodes.length + 1)
      = some (gatherNodeOf pid bid mc.nodes.length (gatherShape pn.shape bn.shape gd) pn.ety) := by
    have := @getNode_append_at mc
      [axisConstNode gd,
        gatherNodeOf pid bid mc.nodes.length (gatherShape pn.shape bn.shape gd) pn.ety]
      mc.params mc.outputs 1 (by simp)
    rw [this]
    rfl
  have hax : getNode ⟨mc.nodes ++ [axisConstNode gd,
      gatherNodeOf pid bid mc.nodes.length (gatherShape pn.shape bn.shape gd) pn.ety],
      mc.params, mc.outputs⟩ mc.nodes.length = some (axisConstNode gd) := by
    have := @getNode_append_at mc
      [axisConstNode gd,
        gatherNodeOf pid bid mc.nodes.length (gatherShape pn.shape bn.shape gd) pn.ety]
      mc.params mc.outputs 0 (by simp)
    rw [Nat.add_zero] at this
    rw [this]
    rfl
  have hnoslotg : ∀ k', (mc.nodes.length + 1, k') ∉ consumers mc pid := by
    intro k' hk'
    have := mem_consumers.mp hk'
    unfold argAt at this
    rw [getNode_none_of_le (by omega)] at this
    exact absurd this (Option.noConfusion)
  have hnoslota : ∀ k', (mc.nodes.length, k') ∉ consumers mc pid := by
    intro k' hk'
    have := mem_consumers.mp hk'
    unfold argAt at this
    rw [getNode_none_of_le (by omega)] at this
    exact absurd this (Option.noConfusion)
  refine ⟨mc.nodes.length + 1,
    gatherNodeOf pid bid mc.nodes.length (gatherShape pn.shape bn.shape gd) pn.ety,
    mc.nodes.length, by omega, hbidL, ?_, ?_, rfl, rfl, ?_⟩
  · have hA : argAt mc i k = some pid := mem_consumers.mp hmem
    have hiL : i < mc.nodes.length := by
      unfold argAt at hA
      match hn : getNode mc i with
      | none => rw [hn] at hA; exact absurd hA (Option.noConfusion)
      | some n => exact getNode_lt_length hn
    refine argAt_redirect_mem hmem ?_
    rw [argAt_append_lt hiL, hA]
    rfl
  · rw [getNode_redirect_of_no_slot hnoslotg]
    exact hga
  · rw [getNode_redirect_of_no_slot hnoslota]
    exact hax

/-- Later fusion steps (for other, distinct key-value inputs below `bid`)
preserve an already-fused edge. -/
theorem fuseAll_preserve (gd : Int) (bid pid : Nat) (m₁ : Model) (bn₁ : Node)
    (hb : getNode m₁ bid = some bn₁) :
    ∀ (names : List String) (mc mc' : Model), MetaExt m₁ mc →
    (∀ nm' ∈ names, ∃ pid', findInput m₁ nm' = .ok pid' ∧ pid' < bid ∧ pid' ≠ pid) →
    fuseAll gd bid mc names = .ok mc' →
    ∀ i k, EdgeGathered mc pid bid gd i k → EdgeGathered mc' pid bid gd i k
  | [], mc, mc', _, _, hok, i, k, he => by
    unfold fuseAll at hok
    injection hok with hok
    subst hok
    exact he
  | nm' :: rest, mc, mc', hme, hres, hok, i, k, he => by
    unfold fuseAll at hok
    obtain ⟨pid', hr, hlt, hne⟩ := hres nm' (List.mem_cons_self _ _)
    have hrc : findInput mc nm' = .ok pid' := by rw [hme.findInput_eq]; exact hr
    obtain ⟨pn', hpn', -⟩ := findInput_ok_getNode hrc
    obtain ⟨bn', hbn', -, -, -, -⟩ := hme.node_meta bid bn₁ hb
    have hstep := fuseOne_eq gd bid hrc hpn' hbn'
    rw [hstep] at hok
    have hok2 : fuseAll gd bid (redirect (consumers mc pid') (mc.nodes.length + 1)
        ⟨mc.nodes ++ [axisConstNode gd,
          gatherNodeOf pid' bid mc.nodes.length (gatherShape pn'.shape bn'.shape gd) pn'.ety],
         mc.params, mc.outputs⟩) rest = .ok mc' := hok
    obtain ⟨gid, gn, axid, hg1, hg2, hg3, hg4, hg5, hg6, hg7⟩ := he
    have hpl : pid' < mc.nodes.length := getNode_lt_length hpn'
    have hgl : gid < mc.nodes.length := getNode_lt_length hg4
    have he' : EdgeGathered (redirect (consumers mc pid') (mc.nodes.length + 1)
        ⟨mc.nodes ++ [axisConstNode gd,
          gatherNodeOf pid' bid mc.nodes.length (gatherShape pn'.shape bn'.shape gd) pn'.ety],
         mc.params, mc.outputs⟩) pid bid gd i k := by
      refine ⟨gid, gn, axid, hg1, hg2, ?_, ?_, hg5, hg6, ?_⟩
      · exact (step_argAt_iff mc pid' bid _ _ rfl rfl (by omega) (by omega) hgl i k).mpr hg3
      · refine step_getNode mc pid' _ _ hg4 ?_
        rw [hg6]
        intro hmm
        rcases List.mem_cons.mp hmm with h' | hmm
        · exact hne h'
        rcases List.mem_cons.mp hmm with h' | hmm
        · omega
        rcases List.mem_cons.mp hmm with h' | hmm
        · have := getNode_lt_length hg7
          omega
        · exact absurd hmm (List.not_mem_nil _)
      · refine step_getNode mc pid' _ _ hg7 ?_
        intro hmm
        exact absurd hmm (by simp [axisConstNode])
    have hme' : MetaExt m₁ (redirect (consumers mc pid') (mc.nodes.length + 1)
        ⟨mc.nodes ++ [axisConstNode gd,
          gatherNodeOf pid' bid mc.nodes.length (gatherShape pn'.shape bn'.shape gd) pn'.ety],
         mc.params, mc.outputs⟩) :=
      hme.trans (fuseOne_metaExt hstep)
    exact fuseAll_preserve gd bid pid m₁ bn₁ hb rest _ mc' hme'
      (fun nm'' h'' => hres nm'' (List.mem_cons_of_mem _ h'')) hok2 i k he'

/-- The fusion fold: every key-value input name that resolves in the base
model `m₁` to a port below `bid` (all distinct) gets each of its `m₁`
consumer edges redirected to a dedicated gather node. -/
theorem fuseAll_spec (gd : Int) (bid : Nat) (m₁ : Model) (bn₁ : Node)
    (hb : getNode m₁ bid = some bn₁) :
    ∀ (names : List String) (mc : Model), MetaExt m₁ mc →
    (∀ nm ∈ names, ∃ pid, findInput m₁ nm = .ok pid ∧ pid < bid) →
    (names.map (fun nm => (findInput m₁ nm).toOption)).Nodup →
    (∀ nm pid, nm ∈ names → findInput m₁ nm = .ok pid →
      ∀ i k, ((i, k) ∈ consumers mc pid ↔ (i, k) ∈ consumers m₁ pid)) →
    ∃ m', fuseAll gd bid mc names = .ok m' ∧ MetaExt m₁ m' ∧
      ∀ nm pid, nm ∈ names → findInput m₁ nm = .ok pid →
        ∀ i k, (i, k) ∈ consumers m₁ pid → EdgeGathered m' pid bid gd i k
  | [], mc, hme, _, _, _ => by
    refine ⟨mc, rfl, hme, ?_⟩
    intro nm pid hnm
    exact absurd hnm (List.not_mem_nil _)
  | nm :: rest, mc, hme, hres, hnd, hinv => by
    obtain ⟨pid, hr, hlt⟩ := hres nm (List.mem_cons_self _ _)
    have hrc : findInput mc nm = .ok pid := by rw [hme.findInput_eq]; exact hr
    obtain ⟨pn, hpn, -⟩ := findInput_ok_getNode hrc
    obtain ⟨bn', hbn', -, -, -, -⟩ := hme.node_meta bid bn₁ hb
    have hstep := fuseOne_eq gd bid hrc hpn hbn'
    -- distinctness of the head resolution from every tail resolution
    have hdist : ∀ nm'' pid'', nm'' ∈ rest → findInput m₁ nm'' = .ok pid'' → pid'' ≠ pid := by
      intro nm'' pid'' hmem hr'' hcontra
      subst hcontra
      have h1 := (List.nodup_cons.mp hnd).1
      refine h1 ?_
      rw [List.mem_map]
      refine ⟨nm'', hmem, ?_⟩
      show (findInput m₁ nm'').toOption = (findInput m₁ nm).toOption
      rw [hr'', hr]
    have hres' : ∀ nm' ∈ rest, ∃ pid', findInput m₁ nm' = .ok pid' ∧ pid' < bid ∧ pid' ≠ pid := by
      intro nm' hmem
      obtain ⟨pid', hr', hlt'⟩ := hres nm' (List.mem_cons_of_mem _ hmem)
      exact ⟨pid', hr', hlt', hdist nm' pid' hmem hr'⟩
    set mcs : Model := redirect (consumers mc pid) (mc.nodes.length + 1)
      ⟨mc.nodes ++ [axisConstNode gd,
        gatherNodeOf pid bid mc.nodes.length (gatherShape pn.shape bn'.shape gd) pn.ety],
       mc.params, mc.outputs⟩ with hmcs
    have hmes : MetaExt m₁ mcs := hme.trans (fuseOne_metaExt hstep)
    -- the invariant survives the step, for the tail's resolutions
    have hinv' : ∀ nm'' pid'', nm'' ∈ rest → findInput m₁ nm'' = .ok pid'' →
        ∀ i k, ((i, k) ∈ consumers mcs pid'' ↔ (i, k) ∈ consumers m₁ pid'') := by
      intro nm'' pid'' hmem hr'' i k
      obtain ⟨pn'', hpn'', -⟩ := findInput_ok_getNode hr''
      obtain ⟨pnc, hpnc, -, -, -, -⟩ := hme.node_meta pid'' pn'' hpn''
      have hplt : pid'' < mc.nodes.length := getNode_lt_length hpnc
      have hlt'' : pid'' < bid := by
        obtain ⟨q, hq, hqlt⟩ := hres nm'' (List.mem_cons_of_mem _ hmem)
        rw [hq] at hr''
        injection hr'' with hr''
        omega
      rw [mem_consumers, mem_consumers]
      rw [hmcs]
      rw [step_argAt_iff mc pid bid _ _ rfl rfl
        (hdist nm'' pid'' hmem hr'') (by omega) hplt i k]
      rw [← mem_consumers, ← mem_consumers]
      exact hinv nm'' pid'' (List.mem_cons_of_mem _ hmem) hr'' i k
    obtain ⟨m', hokrest, hmef, hedges⟩ := fuseAll_spec gd bid m₁ bn₁ hb rest mcs hmes
      (fun nm' hmem => hres nm' (List.mem_cons_of_mem _ hmem))
      (List.nodup_cons.mp hnd).2 hinv'
    refine ⟨m', ?_, hmef, ?_⟩
    · show fuseAll gd bid mc (nm :: rest) = .ok m'
      unfold fuseAll
      rw [hstep]
      exact hokrest
    · intro nm0 pid0 hmem0 hr0 i k hc
      rcases List.mem_cons.mp hmem0 with h0 | h0
      · -- the head name: its edges were fused by this step and survive the rest
        subst h0
        have hpid0 : pid0 = pid := by
          rw [hr0] at hr
          injection hr with hr
        subst hpid0
        have hcc : (i, k) ∈ consumers mc pid0 :=
          (hinv nm0 pid0 (List.mem_cons_self _ _) hr0 i k).mpr hc
        have hest := fuseOne_establish hrc hpn hbn' hstep i k hcc
        exact fuseAll_preserve gd bid pid0 m₁ bn₁ hb rest mcs m' hmes hres' hokrest i k hest
      · exact hedges nm0 pid0 h0 hr0 i k hc

theorem findInput_eq_ok_iff {m : Model} {nm : String} {pid : Nat} :
    findInput m nm = .ok pid ↔
      m.params.find? (fun i => (portNames m i).contains nm) = some pid := by
  unfold findInput
  match hf : m.params.find? (fun i => (portNames m i).contains nm) with
  | some j =>
    constructor
    · intro h; injection h with h; rw [h]
    · intro h; injection h with h; rw [h]
  | none =>
    constructor
    · intro h; exact absurd h (Except.noConfusion)
    · intro h; exact absurd h (Option.noConfusion)

theorem fuse_cache_reorder_eq {m : Model} (nk : List Nat) {kv : List String} {gd : Int}
    {iid : Nat} {nIds : Node} {d : Dim} {m2 : Model}
    (hno : model_has_name m "beam_idx" = false)
    (hids : findInput m "input_ids" = .ok iid)
    (hnode : getNode m iid = some nIds)
    (hd : nIds.shape[0]? = some d)
    (hfa : fuseAll gd m.nodes.length
      ⟨m.nodes ++ [beamParamNode d], m.params ++ [m.nodes.length], m.outputs⟩ kv = .ok m2) :
    fuse_cache_reorder m nk kv gd = .ok (m2, nk ++ [m.nodes.length]) := by
  unfold fuse_cache_reorder
  simp only [hno, hids, hnode, hd, Bool.false_eq_true, if_false]
  rw [hfa]

/-- C1: for every graph that has an `input_ids` input, no port named
"beam_idx", and N ≥ 1 key-value input names each resolving to a (distinct)
input port, `fuse_cache_reorder` succeeds, the port list gains exactly one new
input named "beam_idx", of i32 type and 1-D shape whose single extent is the
batch (dimension-0) extent of `input_ids`, and every consumer edge that
previously read a key-value input port now reads the output of a gather node
(gathering with the beam parameter as indices and `gather_dim` as the axis
constant) whose data source is that original port. -/
theorem C1_fuse_cache_reorder_adds_beam_and_gathers
    (m : Model) (nk : List Nat) (kvIn : List String) (gd : Int)
    (iid : Nat) (nIds : Node) (d : Dim)
    (hwf : ∀ p ∈ m.params, p < m.nodes.length)
    (hno : model_has_name m "beam_idx" = false)
    (hids : findInput m "input_ids" = .ok iid)
    (hnode : getNode m iid = some nIds)
    (hd : nIds.shape[0]? = some d)
    (_hne : kvIn ≠ [])
    (hres : ∀ nm ∈ kvIn, ∃ pid, findInput m nm = .ok pid)
    (hdis : (kvIn.map (fun nm => (findInput m nm).toOption)).Nodup) :
    ∃ m', fuse_cache_reorder m nk kvIn gd = .ok (m', nk ++ [m.nodes.length]) ∧
      m'.params = m.params ++ [m.nodes.length] ∧
      m'.params.filter (fun i => (portNames m' i).contains "beam_idx") = [m.nodes.length] ∧
      (∃ bn, getNode m' m.nodes.length = some bn ∧ bn.ety = .i32 ∧ bn.shape = [d] ∧
        bn.names = ["beam_idx"]) ∧
      ∀ nm pid, nm ∈ kvIn → findInput m nm = .ok pid →
        ∀ i k, (i, k) ∈ consumers m pid →
          ∃ gid gn axid, argAt m' i k = some gid ∧ getNode m' gid = some gn ∧
            gn.op = .gatherOp ∧ gn.args = [pid, m.nodes.length, axid] ∧
            getNode m' axid = some (axisConstNode gd) := by
  set bid := m.nodes.length with hbid
  set m₁ : Model := ⟨m.nodes ++ [beamParamNode d], m.params ++ [bid], m.outputs⟩ with hm₁
  have hbeam : getNode m₁ bid = some (beamParamNode d) := by
    rw [hm₁]
    unfold getNode
    exact List.getElem?_concat_length _ _
  have hport : ∀ p, p ∈ m.params → portNames m₁ p = portNames m p := by
    intro p hp
    unfold portNames
    rw [hm₁, getNode_append_lt (hwf p hp)]
  have hfind : ∀ nm pid, findInput m nm = .ok pid → findInput m₁ nm = .ok pid := by
    intro nm pid h
    rw [findInput_eq_ok_iff] at h ⊢
    show (m.params ++ [bid]).find? (fun i => (portNames m₁ i).contains nm) = some pid
    rw [List.find?_append, find?_congr_mem (fun p hp => by rw [hport p hp]), h]
    rfl
  have hargAt : ∀ i k, argAt m₁ i k = argAt m i k := by
    intro i k
    rw [hm₁]
    refine argAt_append_argfree ?_ i k
    intro n hn
    rcases List.mem_singleton.mp hn with rfl
    rfl
  have hcons : ∀ pid i k, ((i, k) ∈ consumers m₁ pid ↔ (i, k) ∈ consumers m pid) := by
    intro pid i k
    rw [mem_consumers, mem_consumers, hargAt]
  have hres₁ : ∀ nm ∈ kvIn, ∃ pid, findInput m₁ nm = .ok pid ∧ pid < bid := by
    intro nm hnm
    obtain ⟨pid, hp⟩ := hres nm hnm
    obtain ⟨pn, hpn, -⟩ := findInput_ok_getNode hp
    exact ⟨pid, hfind nm pid hp, getNode_lt_length hpn⟩
  have hnd₁ : (kvIn.map (fun nm => (findInput m₁ nm).toOption)).Nodup := by
    have : kvIn.map (fun nm => (findInput m₁ nm).toOption)
        = kvIn.map (fun nm => (findInput m nm).toOption) := by
      refine List.map_congr_left ?_
      intro nm hnm
      obtain ⟨pid, hp⟩ := hres nm hnm
      rw [hfind nm pid hp, hp]
    rw [this]
    exact hdis
  obtain ⟨m', hok, hme, hedges⟩ := fuseAll_spec gd bid m₁ (beamParamNode d) hbeam kvIn m₁
    (MetaExt.refl m₁) hres₁ hnd₁ (fun _ _ _ _ _ _ => Iff.rfl)
  have hnocontain : ∀ p ∈ m.params, (portNames m p).contains "beam_idx" = false := by
    intro p hp
    unfold model_has_name at hno
    have := List.any_eq_false.mp hno p (List.mem_append.mpr (Or.inl hp))
    exact Bool.eq_false_iff.mpr this
  refine ⟨m', ?_, ?_, ?_, ?_, ?_⟩
  · exact fuse_cache_reorder_eq nk hno hids hnode hd hok
  · rw [hme.params_eq]
  · rw [hme.params_eq]
    show (m.params ++ [bid]).filter (fun i => (portNames m' i).contains "beam_idx") = [bid]
    rw [List.filter_append]
    have h1 : m.params.filter (fun i => (portNames m' i).contains "beam_idx") = [] := by
      refine List.filter_eq_nil_iff.mpr ?_
      intro p hp
      rw [hme.portNames_eq, hport p hp, hnocontain p hp]
      exact Bool.false_ne_true
    have h2 : [bid].filter (fun i => (portNames m' i).contains "beam_idx") = [bid] := by
      have hpn : portNames m' bid = ["beam_idx"] := by
        rw [hme.portNames_eq]
        unfold portNames
        rw [hbeam]
        rfl
      have hpred : (portNames m' bid).contains "beam_idx" = true := by
        rw [hpn]
        rfl
      simp [List.filter_cons, hpred, hpn]
    rw [h1, h2]
    rfl
  · obtain ⟨bn, hbn, ho, hs, he, hn⟩ := hme.node_meta bid (beamParamNode d) hbeam
    exact ⟨bn, hbn, he, hs, hn⟩
  · intro nm pid hnm hr i k hc
    obtain ⟨gid, gn, axid, -, -, ha, hg, hop, hargs, hax⟩ :=
      hedges nm pid hnm (hfind nm pid hr) i k ((hcons pid i k).mpr hc)
    exact ⟨gid, gn, axid, ha, hg, hop, hargs, hax⟩

/-- A successful run of the fuser leaves a port named "beam_idx". -/
theorem fuse_ok_has_beam {m : Model} {nk : List Nat} {kv : List String} {gd : Int}
    {m' : Model} {nk' : List Nat}
    (h : fuse_cache_reorder m nk kv gd = .ok (m', nk')) :
    model_has_name m' "beam_idx" = true := by
  unfold fuse_cache_reorder at h
  split at h
  · exact absurd h (Except.noConfusion)
  · match h2 : findInput m "input_ids" with
    | .error e => simp only [h2] at h; exact Except.noConfusion h
    | .ok iid =>
      simp only [h2] at h
      match h3 : getNode m iid with
      | none => simp only [h3] at h; exact Except.noConfusion h
      | some n =>
        simp only [h3] at h
        match h4 : n.shape[0]? with
        | none => simp only [h4] at h; exact Except.noConfusion h
        | some d =>
          simp only [h4] at h
          match h5 : fuseAll gd m.nodes.length
              ⟨m.nodes ++ [beamParamNode d], m.params ++ [m.nodes.length], m.outputs⟩ kv with
          | .error e => simp only [h5] at h; exact Except.noConfusion h
          | .ok m2 =>
            simp only [h5] at h
            injection h with h
            obtain ⟨hm, -⟩ := Prod.mk.inj h
            subst hm
            have hme := fuseAll_metaExt h5
            rw [hme.model_has_name_eq]
            refine List.any_eq_true.mpr ⟨m.nodes.length, ?_, ?_⟩
            · exact List.mem_append.mpr (Or.inl (List.mem_append.mpr
                (Or.inr (List.mem_singleton.mpr rfl))))
            · have hb : getNode ⟨m.nodes ++ [beamParamNode d],
                  m.params ++ [m.nodes.length], m.outputs⟩ m.nodes.length
                  = some (beamParamNode d) := by
                unfold getNode
                exact List.getElem?_concat_length _ _
              unfold portNames
              rw [hb]
              simp [beamParamNode]

/-- The assertion of the fuser fails outright on a graph that already has a
"beam_idx" port. -/
theorem fuse_assert_fail {m : Model} (h : model_has_name m "beam_idx" = true)
    (nk : List Nat) (kv : List String) (gd : Int) :
    fuse_cache_reorder m nk kv gd = .error .assertionFailed := by
  unfold fuse_cache_reorder
  simp [h]

/-- C6: invoking `fuse_cache_reorder` a second time on its own output fails
the "not already present" precondition: the first run leaves a port named
"beam_idx", so the second run returns the assertion error (before building
anything). -/
theorem C6_fuse_cache_reorder_not_idempotent
    (m : Model) (nk : List Nat) (kv : List String) (gd : Int)
    (m' : Model) (nk' : List Nat)
    (h : fuse_cache_reorder m nk kv gd = .ok (m', nk')) :
    model_has_name m' "beam_idx" = true ∧
    ∀ (nk2 : List Nat) (kv2 : List String) (gd2 : Int),
      fuse_cache_reorder m' nk2 kv2 gd2 = .error .assertionFailed := by
  have hb := fuse_ok_has_beam h
  exact ⟨hb, fun nk2 kv2 gd2 => fuse_assert_fail hb nk2 kv2 gd2⟩

/-- A small decoder-like graph used as a concrete witness: `input_ids` and
`attention_mask` inputs, one key-value cache input (node 2) consumed by node
3, and two outputs. -/
def exampleModel : Model :=
  ⟨[{ op := .param, args := [], shape := [.dyn 0, .dyn 0], ety := .i64,
      names := ["input_ids"] },
    { op := .param, args := [], shape := [.dyn 0, .dyn 0], ety := .i64,
      names := ["attention_mask"] },
    { op := .param, args := [], shape := [.dyn 0, .fixed 8, .dyn 0, .fixed 64], ety := .f32,
      names := ["past_key_values.0.key"] },
    { op := .generic "Concat", args := [2], shape := [], ety := .f32, names := [] },
    { op := .generic "Add", args := [0, 1], shape := [], ety := .f32, names := [] },
    { op := .generic "Result", args := [4], shape := [], ety := .f32, names := ["logits"] },
    { op := .generic "Result", args := [3], shape := [], ety := .f32,
      names := ["present.0.key"] }],
   [0, 1, 2], [5, 6]⟩

/-- The graph `exampleModel` after one run of the fuser. -/
def exampleFused : Model × List Nat :=
  match fuse_cache_reorder exampleModel [0, 1] ["past_key_values.0.key"] 0 with
  | .ok p => p
  | .error _ => (exampleModel, [])

/-- Witness for C1 at the concrete graph `exampleModel`. -/
theorem C1_witness :
    ∃ m', fuse_cache_reorder exampleModel [0, 1] ["past_key_values.0.key"] 0
        = .ok (m', [0, 1] ++ [exampleModel.nodes.length]) ∧
      m'.params = exampleModel.params ++ [exampleModel.nodes.length] ∧
      m'.params.filter (fun i => (portNames m' i).contains "beam_idx")
        = [exampleModel.nodes.length] ∧
      (∃ bn, getNode m' exampleModel.nodes.length = some bn ∧ bn.ety = .i32 ∧
        bn.shape = [.dyn 0] ∧ bn.names = ["beam_idx"]) ∧
      ∀ nm pid, nm ∈ ["past_key_values.0.key"] → findInput exampleModel nm = .ok pid →
        ∀ i k, (i, k) ∈ consumers exampleModel pid →
          ∃ gid gn axid, argAt m' i k = some gid ∧ getNode m' gid = some gn ∧
            gn.op = .gatherOp ∧ gn.args = [pid, exampleModel.nodes.length, axid] ∧
            getNode m' axid = some (axisConstNode 0) :=
  C1_fuse_cache_reorder_adds_beam_and_gathers exampleModel [0, 1]
    ["past_key_values.0.key"] 0 0
    { op := .param, args := [], shape := [.dyn 0, .dyn 0], ety := .i64,
      names := ["input_ids"] } (.dyn 0)
    (by decide) (by rfl) (by rfl) (by rfl) (by rfl)
    (List.cons_ne_nil _ _)
    (by
      intro nm hnm
      rw [List.mem_singleton] at hnm
      subst hnm
      exact ⟨2, by rfl⟩)
    (by simp)

/-- Witness for C6: the second application of the fuser to the fused
`exampleModel` fails its precondition. -/
theorem C6_witness :
    model_has_name exampleFused.1 "beam_idx" = true ∧
    ∀ (nk2 : List Nat) (kv2 : List String) (gd2 : Int),
      fuse_cache_reorder exampleFused.1 nk2 kv2 gd2 = .error .assertionFailed :=
  C6_fuse_cache_reorder_not_idempotent exampleModel [0, 1] ["past_key_values.0.key"] 0
    exampleFused.1 exampleFused.2 (by rfl)

/-- A graph whose only "beam_idx" port is an output. -/
def outBeamModel : Model :=
  ⟨[{ op := .generic "Result", args := [], shape := [], ety := .f32,
      names := ["beam_idx"] }], [], [0]⟩

/-- C8: `fuse_cache_reorder`'s precondition scans input and output names
(`model_has_name`), strictly stronger than `model_has_cache_reorder`, which
scans inputs only: on `outBeamModel`, whose only "beam_idx" port is an
output, the query is false yet the fuser's assertion fails. -/
theorem C8_has_name_stronger_than_cache_reorder :
    model_has_cache_reorder outBeamModel = false ∧
    fuse_cache_reorder outBeamModel [] [] 0 = .error .assertionFailed ∧
    ∀ (m : Model) (nm : String), model_has_input m nm = true → model_has_name m nm = true := by
  refine ⟨by rfl, by rfl, ?_⟩
  intro m nm h
  unfold model_has_input at h
  obtain ⟨p, hp, hc⟩ := List.any_eq_true.mp h
  exact List.any_eq_true.mpr ⟨p, List.mem_append.mpr (Or.inl hp), hc⟩

/-- Witness for C8's generic part at a concrete graph. -/
theorem C8_witness :
    model_has_input exampleModel "input_ids" = true ∧
    model_has_name exampleModel "input_ids" = true :=
  ⟨by rfl, C8_has_name_stronger_than_cache_reorder.2.2 exampleModel "input_ids" (by rfl)⟩

/-! ### State initializer machinery -/

theorem getNode_setArgsAll_self {m : Model} {i : Nat} {n : Node} (a : List Nat)
    (h : getNode m i = some n) :
    getNode (setArgsAll m i a) i = some { n with args := a } := by
  unfold setArgsAll
  rw [h]
  show (m.nodes.set i _)[i]? = _
  exact List.getElem?_set_self (getNode_lt_length h)

theorem getNode_setArgsAll_ne (m : Model) {i : Nat} (a : List Nat) {j : Nat} (h : j ≠ i) :
    getNode (setArgsAll m i a) j = getNode m j := by
  unfold setArgsAll
  split
  · exact List.getElem?_set_ne (fun hh => h hh.symm)
  · rfl

theorem setArgsAll_length (m : Model) (i : Nat) (a : List Nat) :
    (setArgsAll m i a).nodes.length = m.nodes.length := by
  unfold setArgsAll
  split
  · simp
  · rfl

theorem dimNodes_len (batchId bd : Nat) :
    ∀ (mins : List Nat) (next j : Nat),
      (dimNodes batchId bd next j mins).2.length = mins.length ∧
      (dimNodes batchId bd next j mins).1.length ≤ mins.length
  | [], next, j => by
    unfold dimNodes
    exact ⟨rfl, Nat.le_refl 0⟩
  | v :: rest, next, j => by
    obtain ⟨h1, h2⟩ := dimNodes_len batchId bd rest next (j + 1)
    obtain ⟨h1', h2'⟩ := dimNodes_len batchId bd rest (next + 1) (j + 1)
    unfold dimNodes
    by_cases hj : j = bd
    · rw [if_pos hj]
      refine ⟨?_, ?_⟩
      · show (batchId :: (dimNodes batchId bd next (j + 1) rest).2).length = rest.length + 1
        rw [List.length_cons, h1]
      · show (dimNodes batchId bd next (j + 1) rest).1.length ≤ rest.length + 1
        omega
    · rw [if_neg hj]
      refine ⟨?_, ?_⟩
      · show (next :: (dimNodes batchId bd (next + 1) (j + 1) rest).2).length = rest.length + 1
        rw [List.length_cons, h1']
      · show (constVecNode (Int.ofNat v) ::
            (dimNodes batchId bd (next + 1) (j + 1) rest).1).length ≤ rest.length + 1
        rw [List.length_cons]
        omega

theorem dimNodes_get (batchId bd : Nat) :
    ∀ (mins : List Nat) (next j jj v : Nat), mins[jj]? = some v →
      (j + jj = bd → (dimNodes batchId bd next j mins).2[jj]? = some batchId) ∧
      (j + jj ≠ bd → ∃ cnt, cnt < (dimNodes batchId bd next j mins).1.length ∧
        (dimNodes batchId bd next j mins).2[jj]? = some (next + cnt) ∧
        (dimNodes batchId bd next j mins).1[cnt]? = some (constVecNode (Int.ofNat v)))
  | [], next, j, jj, v, hv => by
    rw [List.getElem?_nil] at hv
    exact absurd hv (Option.noConfusion)
  | w :: rest, next, j, 0, v, hv => by
    rw [List.getElem?_cons_zero] at hv
    injection hv with hv
    subst hv
    unfold dimNodes
    by_cases hj : j = bd
    · rw [if_pos hj]
      refine ⟨fun _ => ?_, fun hne => absurd (by omega : j + 0 = bd) hne⟩
      show (batchId :: (dimNodes batchId bd next (j + 1) rest).2)[0]? = some batchId
      exact List.getElem?_cons_zero
    · rw [if_neg hj]
      refine ⟨fun heq => absurd (by omega : j = bd) hj, fun _ => ?_⟩
      refine ⟨0, ?_, ?_, ?_⟩
      · show 0 < (constVecNode (Int.ofNat w) ::
          (dimNodes batchId bd (next + 1) (j + 1) rest).1).length
        rw [List.length_cons]
        omega
      · show (next :: (dimNodes batchId bd (next + 1) (j + 1) rest).2)[0]? = some (next + 0)
        rw [List.getElem?_cons_zero, Nat.add_zero]
      · show (constVecNode (Int.ofNat w) ::
          (dimNodes batchId bd (next + 1) (j + 1) rest).1)[0]? = some (constVecNode (Int.ofNat w))
        exact List.getElem?_cons_zero
  | w :: rest, next, j, jj + 1, v, hv => by
    rw [List.getElem?_cons_succ] at hv
    unfold dimNodes
    by_cases hj : j = bd
    · rw [if_pos hj]
      obtain ⟨ih1, ih2⟩ := dimNodes_get batchId bd rest next (j + 1) jj v hv
      refine ⟨fun heq => ?_, fun hne => ?_⟩
      · show (batchId :: (dimNodes batchId bd next (j + 1) rest).2)[jj + 1]? = some batchId
        rw [List.getElem?_cons_succ]
        exact ih1 (by omega)
      · obtain ⟨cnt, hc1, hc2, hc3⟩ := ih2 (by omega)
        refine ⟨cnt, ?_, ?_, ?_⟩
        · show cnt < (dimNodes batchId bd next (j + 1) rest).1.length
          exact hc1
        · show (batchId :: (dimNodes batchId bd next (j + 1) rest).2)[jj + 1]? = some (next + cnt)
          rw [List.getElem?_cons_succ]
          exact hc2
        · show (dimNodes batchId bd next (j + 1) rest).1[cnt]?
            = some (constVecNode (Int.ofNat v))
          exact hc3
    · rw [if_neg hj]
      obtain ⟨ih1, ih2⟩ := dimNodes_get batchId bd rest (next + 1) (j + 1) jj v hv
      refine ⟨fun heq => ?_, fun hne => ?_⟩
      · show (next :: (dimNodes batchId bd (next + 1) (j + 1) rest).2)[jj + 1]? = some batchId
        rw [List.getElem?_cons_succ]
        exact ih1 (by omega)
      · obtain ⟨cnt, hc1, hc2, hc3⟩ := ih2 (by omega)
        refine ⟨cnt + 1, ?_, ?_, ?_⟩
        · show cnt + 1 < (constVecNode (Int.ofNat w) ::
            (dimNodes batchId bd (next + 1) (j + 1) rest).1).length
          rw [List.length_cons]
          omega
        · show (next :: (dimNodes batchId bd (next + 1) (j + 1) rest).2)[jj + 1]?
            = some (next + (cnt + 1))
          rw [List.getElem?_cons_succ, hc2]
          congr 1
          omega
        · show (constVecNode (Int.ofNat w) ::
            (dimNodes batchId bd (next + 1) (j + 1) rest).1)[cnt + 1]?
            = some (constVecNode (Int.ofNat v))
          rw [List.getElem?_cons_succ]
          exact hc3

/-- The zero-initializer property the claim describes for one state read node:
its (sole) argument is a broadcast of a zero constant of its element type over
the concatenation of its minimum-length dimensions, with the live batch node
substituted at position `bd`; all constructed ids lie at or above `L`. -/
def ZeroInit (m : Model) (batchId bd : Nat) (sh : Shape) (t : OVType) (rid L : Nat) : Prop :=
  ∃ rn brId brn, getNode m rid = some rn ∧ rn.args = [brId] ∧ L ≤ brId ∧
    getNode m brId = some brn ∧ brn.op = .broadcastOp ∧
    ∃ zId cId, brn.args = [zId, cId] ∧ L ≤ zId ∧ L ≤ cId ∧
      getNode m zId = some (zeroScalarNode t) ∧
      ∃ cn, getNode m cId = some cn ∧ cn.op = .concatOp 0 ∧
        cn.args.length = sh.length ∧
        ∀ jj dim, sh[jj]? = some dim →
          (jj = bd → cn.args[jj]? = some batchId) ∧
          (jj ≠ bd → ∃ dId, cn.args[jj]? = some dId ∧ L ≤ dId ∧
            getNode m dId = some (constVecNode (Int.ofNat dim.minLength)))

theorem initOne_length_ge {batchId bd : Nat} {mc mc' : Model} {rid : Nat}
    (h : initOne batchId bd mc rid = .ok mc') :
    mc.nodes.length ≤ mc'.nodes.length := by
  unfold initOne at h
  match hn : getNode mc rid with
  | none =>
    simp only [hn] at h
    injection h with h
    subst h
    exact Nat.le_refl _
  | some rn =>
    simp only [hn] at h
    split at h
    · injection h with h
      subst h
      rw [setArgsAll_length]
      simp
    · exact absurd h (Except.noConfusion)

theorem initOne_frame {batchId bd : Nat} {mc mc' : Model} {rid : Nat}
    (h : initOne batchId bd mc rid = .ok mc') :
    ∀ j n, j ≠ rid → getNode mc j = some n → getNode mc' j = some n := by
  unfold initOne at h
  match hn : getNode mc rid with
  | none =>
    simp only [hn] at h
    injection h with h
    subst h
    exact fun j n _ hj => hj
  | some rn =>
    simp only [hn] at h
    split at h
    · injection h with h
      subst h
      intro j n hne hj
      rw [getNode_setArgsAll_ne _ _ hne]
      unfold getNode
      rw [List.append_assoc, List.getElem?_append_left (getNode_lt_length hj)]
      exact hj
    · exact absurd h (Except.noConfusion)

theorem initOne_metaExt {batchId bd : Nat} {mc mc' : Model} {rid : Nat}
    (h : initOne batchId bd mc rid = .ok mc') : MetaExt mc mc' := by
  unfold initOne at h
  match hn : getNode mc rid with
  | none =>
    simp only [hn] at h
    injection h with h
    subst h
    exact MetaExt.refl mc
  | some rn =>
    simp only [hn] at h
    split at h
    · injection h with h
      subst h
      rw [List.append_assoc]
      refine MetaExt.trans (metaExt_append ?_) (metaExt_setArgsAll _ _ _)
      intro n hn'
      rcases List.mem_append.mp hn' with hn' | hn'
      · -- a dimension constant
        have : ∀ (mins : List Nat) (next j : Nat),
            ∀ nd ∈ (dimNodes batchId bd next j mins).1, nd.names = [] := by
          intro mins
          induction mins with
          | nil => intro next j nd hnd; unfold dimNodes at hnd; exact absurd hnd (List.not_mem_nil _)
          | cons w rest ih =>
            intro next j nd hnd
            unfold dimNodes at hnd
            by_cases hj : j = bd
            · rw [if_pos hj] at hnd
              exact ih next (j + 1) nd hnd
            · rw [if_neg hj] at hnd
              rcases List.mem_cons.mp hnd with rfl | hnd
              · rfl
              · exact ih (next + 1) (j + 1) nd hnd
        exact this _ _ _ n hn'
      · rcases List.mem_cons.mp hn' with rfl | hn'
        · rfl
        rcases List.mem_cons.mp hn' with rfl | hn'
        · rfl
        rcases List.mem_cons.mp hn' with rfl | hn'
        · rfl
        · exact absurd hn' (List.not_mem_nil _)
    · exact absurd h (Except.noConfusion)

theorem initOne_establish {batchId bd : Nat} {mc : Model} {rid L : Nat} {rn : Node}
    (hnode : getNode mc rid = some rn) (hbd : bd < rn.shape.length)
    (hL : L ≤ mc.nodes.length) (hrid : rid < L) :
    ∃ mc', initOne batchId bd mc rid = .ok mc' ∧
      ZeroInit mc' batchId bd rn.shape rn.ety rid L := by
  have hok : initOne batchId bd mc rid = .ok (setArgsAll
      ⟨mc.nodes ++ (dimNodes batchId bd mc.nodes.length 0 (rn.shape.map Dim.minLength)).1 ++
        [concatNodeOf (dimNodes batchId bd mc.nodes.length 0 (rn.shape.map Dim.minLength)).2,
         zeroScalarNode rn.ety,
         broadcastNodeOf
           (mc.nodes.length + (dimNodes batchId bd mc.nodes.length 0
             (rn.shape.map Dim.minLength)).1.length + 1)
           (mc.nodes.length + (dimNodes batchId bd mc.nodes.length 0
             (rn.shape.map Dim.minLength)).1.length) rn.shape rn.ety],
        mc.params, mc.outputs⟩ rid
      [mc.nodes.length + (dimNodes batchId bd mc.nodes.length 0
        (rn.shape.map Dim.minLength)).1.length + 2]) := by
    unfold initOne
    simp only [hnode]
    rw [if_pos hbd]
  set ns := (dimNodes batchId bd mc.nodes.length 0 (rn.shape.map Dim.minLength)).1 with hns
  set ids := (dimNodes batchId bd mc.nodes.length 0 (rn.shape.map Dim.minLength)).2 with hids
  set cId := mc.nodes.length + ns.length with hcid
  set m1 : Model := ⟨mc.nodes ++ ns ++
    [concatNodeOf ids, zeroScalarNode rn.ety, broadcastNodeOf (cId + 1) cId rn.shape rn.ety],
    mc.params, mc.outputs⟩ with hm1
  refine ⟨setArgsAll m1 rid [cId + 2], hok, ?_⟩
  have hm1len : m1.nodes.length = mc.nodes.length + ns.length + 3 := by
    rw [hm1]
    show (mc.nodes ++ ns ++ _).length = _
    simp only [List.length_append, List.length_cons, List.length_nil]
  have hlook : ∀ t : Nat, t < 3 → getNode m1 (cId + t) =
      [concatNodeOf ids, zeroScalarNode rn.ety,
        broadcastNodeOf (cId + 1) cId rn.shape rn.ety][t]? := by
    intro t ht
    rw [hm1]
    unfold getNode
    rw [List.getElem?_append_right (by rw [List.length_append]; omega)]
    congr 1
    rw [List.length_append]
    omega
  have hfr : ∀ j nj, j < mc.nodes.length → getNode mc j = some nj →
      getNode (setArgsAll m1 rid [cId + 2]) j = some nj ∨ j = rid := by
    intro j nj hjl hj
    by_cases hjr : j = rid
    · exact Or.inr hjr
    · refine Or.inl ?_
      rw [getNode_setArgsAll_ne _ _ hjr, hm1]
      unfold getNode
      rw [List.append_assoc, List.getElem?_append_left (by omega)]
      exact hj
  -- the modified read node
  have hrd : getNode (setArgsAll m1 rid [cId + 2]) rid = some { rn with args := [cId + 2] } := by
    refine getNode_setArgsAll_self _ ?_
    rw [hm1]
    unfold getNode
    rw [List.append_assoc, List.getElem?_append_left (by
      have := getNode_lt_length hnode
      omega)]
    exact hnode
  have hbr : getNode (setArgsAll m1 rid [cId + 2]) (cId + 2)
      = some (broadcastNodeOf (cId + 1) cId rn.shape rn.ety) := by
    rw [getNode_setArgsAll_ne _ _ (by omega)]
    rw [hlook 2 (by omega)]
    rfl
  have hz : getNode (setArgsAll m1 rid [cId + 2]) (cId + 1)
      = some (zeroScalarNode rn.ety) := by
    rw [getNode_setArgsAll_ne _ _ (by omega)]
    rw [hlook 1 (by omega)]
    rfl
  have hcc : getNode (setArgsAll m1 rid [cId + 2]) cId = some (concatNodeOf ids) := by
    rw [getNode_setArgsAll_ne _ _ (by omega)]
    have := hlook 0 (by omega)
    rw [Nat.add_zero] at this
    rw [this]
    rfl
  refine ⟨{ rn with args := [cId + 2] }, cId + 2,
    broadcastNodeOf (cId + 1) cId rn.shape rn.ety, hrd, rfl, by omega, hbr, rfl,
    cId + 1, cId, rfl, by omega, by omega, hz,
    concatNodeOf ids, hcc, rfl, ?_, ?_⟩
  · show ids.length = rn.shape.length
    rw [hids, (dimNodes_len batchId bd _ _ _).1, List.length_map]
  · intro jj dim hdim
    have hmins : (rn.shape.map Dim.minLength)[jj]? = some dim.minLength := by
      rw [List.getElem?_map, hdim]
      rfl
    obtain ⟨hg1, hg2⟩ := dimNodes_get batchId bd (rn.shape.map Dim.minLength)
      mc.nodes.length 0 jj dim.minLength hmins
    constructor
    · intro hjj
      show ids[jj]? = some batchId
      exact hg1 (by omega)
    · intro hjj
      obtain ⟨cnt, hc1, hc2, hc3⟩ := hg2 (by omega)
      have hc1' : cnt < ns.length := hc1
      have hdid : L ≤ mc.nodes.length + cnt := Nat.le_trans hL (Nat.le_add_right _ _)
      refine ⟨mc.nodes.length + cnt, hc2, hdid, ?_⟩
      rw [getNode_setArgsAll_ne _ _ (by omega)]
      rw [hm1]
      unfold getNode
      rw [List.getElem?_append_left (by rw [List.length_append]; omega)]
      rw [List.getElem?_append_right (Nat.le_add_right _ _)]
      rw [show mc.nodes.length + cnt - mc.nodes.length = cnt by omega]
      exact hc3

/-- A `ZeroInit` record survives a later initialization step that only
touches another read node below `L` and appends fresh nodes. -/
theorem ZeroInit_step {m m' : Model} {batchId bd : Nat} {sh : Shape} {t : OVType}
    {rid L rid' : Nat}
    (hstep : ∀ j n, j ≠ rid' → getNode m j = some n → getNode m' j = some n)
    (hner : rid' ≠ rid) (hltr : rid' < L)
    (hz : ZeroInit m batchId bd sh t rid L) : ZeroInit m' batchId bd sh t rid L := by
  obtain ⟨rn, brId, brn, h1, h2, h3, h4, h5, zId, cId, h6, h7, h8, h9,
    cn, h10, h11, h12, h13⟩ := hz
  refine ⟨rn, brId, brn, hstep _ _ (fun h => hner h.symm) h1, h2, h3,
    hstep _ _ (by omega) h4, h5, zId, cId, h6, h7, h8, hstep _ _ (by omega) h9,
    cn, hstep _ _ (by omega) h10, h11, h12, ?_⟩
  intro jj dim hdim
  obtain ⟨ha, hb⟩ := h13 jj dim hdim
  refine ⟨ha, ?_⟩
  intro hne
  obtain ⟨dId, hd1, hd2, hd3⟩ := hb hne
  exact ⟨dId, hd1, hd2, hstep _ _ (by omega) hd3⟩

theorem initAll_preserves (batchId bd L : Nat) {sh : Shape} {t : OVType} {rid : Nat} :
    ∀ (rids : List Nat) (mc mc' : Model),
    initAll batchId bd mc rids = .ok mc' →
    (∀ r ∈ rids, r < L ∧ r ≠ rid) →
    ZeroInit mc batchId bd sh t rid L → ZeroInit mc' batchId bd sh t rid L
  | [], mc, mc', hok, _, hz => by
    unfold initAll at hok
    injection hok with hok
    subst hok
    exact hz
  | r :: rest, mc, mc', hok, hcond, hz => by
    unfold initAll at hok
    match h1 : initOne batchId bd mc r with
    | .error e => simp only [h1] at hok; exact Except.noConfusion hok
    | .ok mcs =>
      simp only [h1] at hok
      obtain ⟨hl, hne⟩ := hcond r (List.mem_cons_self _ _)
      exact initAll_preserves batchId bd L rest mcs mc' hok
        (fun r' hm => hcond r' (List.mem_cons_of_mem _ hm))
        (ZeroInit_step (initOne_frame h1) hne hl hz)

/-- The initializer fold: every listed read node (distinct ids, all below
`L`, each with `bd` within its rank) receives a `ZeroInit` initializer, and
untouched nodes survive verbatim. -/
theorem initAll_spec (batchId bd L : Nat) :
    ∀ (rids : List Nat) (mc : Model),
    (∀ r ∈ rids, r < L ∧ ∃ rn, getNode mc r = some rn ∧ bd < rn.shape.length) →
    rids.Nodup →
    L ≤ mc.nodes.length →
    ∃ mc', initAll batchId bd mc rids = .ok mc' ∧ MetaExt mc mc' ∧
      (∀ j n, (∀ r ∈ rids, r ≠ j) → getNode mc j = some n → getNode mc' j = some n) ∧
      ∀ r rn, r ∈ rids → getNode mc r = some rn →
        ZeroInit mc' batchId bd rn.shape rn.ety r L
  | [], mc, _, _, _ => ⟨mc, rfl, MetaExt.refl mc, fun _ _ _ h => h,
      fun r _ hr _ => absurd hr (List.not_mem_nil _)⟩
  | rid :: rest, mc, hr, hnd, hLlen => by
    obtain ⟨hlt, rn, hrn, hbd⟩ := hr rid (List.mem_cons_self _ _)
    obtain ⟨mcs, hok1, hzi⟩ := initOne_establish hrn hbd hLlen hlt
    have hfr1 := initOne_frame hok1
    have hlen1 : L ≤ mcs.nodes.length := Nat.le_trans hLlen (initOne_length_ge hok1)
    have hres' : ∀ r ∈ rest, r < L ∧ ∃ rn', getNode mcs r = some rn' ∧
        bd < rn'.shape.length := by
      intro r hm
      obtain ⟨hl, rn', hrn', hbd'⟩ := hr r (List.mem_cons_of_mem _ hm)
      have hne : r ≠ rid := by
        intro h
        subst h
        exact (List.nodup_cons.mp hnd).1 hm
      exact ⟨hl, rn', hfr1 r rn' hne hrn', hbd'⟩
    obtain ⟨mc', hok2, hme2, hfr2, hz2⟩ := initAll_spec batchId bd L rest mcs hres'
      (List.nodup_cons.mp hnd).2 hlen1
    refine ⟨mc', ?_, (initOne_metaExt hok1).trans hme2, ?_, ?_⟩
    · show initAll batchId bd mc (rid :: rest) = .ok mc'
      unfold initAll
      rw [hok1]
      exact hok2
    · intro j n hj hn
      refine hfr2 j n (fun r hm => hj r (List.mem_cons_of_mem _ hm)) ?_
      exact hfr1 j n (Ne.symm (hj rid (List.mem_cons_self _ _))) hn
    · intro r rn0 hm hr0
      rcases List.mem_cons.mp hm with h | h
      · subst h
        rw [hrn] at hr0
        injection hr0 with hr0
        subst hr0
        refine initAll_preserves batchId bd L rest mcs mc' hok2 ?_ hzi
        intro r' hm'
        obtain ⟨hl', -⟩ := hr r' (List.mem_cons_of_mem _ hm')
        refine ⟨hl', ?_⟩
        intro hcontra
        subst hcontra
        exact (List.nodup_cons.mp hnd).1 hm'
      · have hne : r ≠ rid := by
          intro hh
          subst hh
          exact (List.nodup_cons.mp hnd).1 h
        exact hz2 r rn0 h (hfr1 r rn0 hne hr0)

theorem filterMap_if_sublist {α β : Type} (f : α → β) (q : α → Prop) [DecidablePred q] :
    ∀ l : List α, (l.filterMap (fun a => if q a then some (f a) else none)).Sublist (l.map f)
  | [] => List.Sublist.slnil
  | a :: l => by
    by_cases hq : q a
    · have heq : (a :: l).filterMap (fun a => if q a then some (f a) else none)
          = f a :: l.filterMap (fun a => if q a then some (f a) else none) := by
        rw [List.filterMap_cons, if_pos hq]
      rw [heq, List.map_cons]
      exact List.Sublist.cons₂ _ (filterMap_if_sublist f q l)
    · have heq : (a :: l).filterMap (fun a => if q a then some (f a) else none)
          = l.filterMap (fun a => if q a then some (f a) else none) := by
        rw [List.filterMap_cons, if_neg hq]
      rw [heq, List.map_cons]
      exact List.Sublist.cons _ (filterMap_if_sublist f q l)

theorem readValueIds_nodup (m : Model) : (readValueIds m).Nodup := by
  have hsub : (readValueIds m).Sublist (m.nodes.enum.map Prod.fst) :=
    filterMap_if_sublist (q := fun p : Nat × Node => p.2.op.typeName = "ReadValue")
      Prod.fst m.nodes.enum
  rw [List.enum_map_fst] at hsub
  exact List.Nodup.sublist hsub (List.nodup_range _)

theorem mem_readValueIds {m : Model} {r : Nat} :
    r ∈ readValueIds m ↔ ∃ n, getNode m r = some n ∧ n.op.typeName = "ReadValue" := by
  unfold readValueIds
  rw [List.mem_filterMap]
  constructor
  · rintro ⟨⟨i, n⟩, hp, hq⟩
    split at hq
    · next hcond =>
      injection hq with hq
      subst hq
      rw [List.mk_mem_enum_iff_getElem?] at hp
      exact ⟨n, hp, hcond⟩
    · exact absurd hq (Option.noConfusion)
  · rintro ⟨n, hn, hcond⟩
    refine ⟨(r, n), ?_, ?_⟩
    · rw [List.mk_mem_enum_iff_getElem?]
      exact hn
    · rw [if_pos hcond]

/-- `build_state_initializer` builds the live batch value as
`Gather(ShapeOf(input_ids), [0], 0)` — reading dimension 0 of `input_ids`
whatever `batch_dim` is — and gives every `ReadValue` node a `ZeroInit`
initializer around it. -/
theorem build_state_initializer_spec (g : Model) (bd : Nat) (iid : Nat) (nIds : Node)
    (hres : findInput g "input_ids" = .ok iid) (hnode : getNode g iid = some nIds)
    (hranks : ∀ r ∈ readValueIds g, ∃ rn, getNode g r = some rn ∧ bd < rn.shape.length) :
    ∃ g', build_state_initializer g bd = .ok g' ∧ MetaExt g g' ∧
      getNode g' g.nodes.length = some (shapeOfNode iid nIds.shape.length) ∧
      getNode g' (g.nodes.length + 1) = some (constVecNode 0) ∧
      getNode g' (g.nodes.length + 2) = some (scalarConstNode 0) ∧
      getNode g' (g.nodes.length + 3)
        = some (gatherNodeOf g.nodes.length (g.nodes.length + 1) (g.nodes.length + 2)
            [.fixed 1] .i64) ∧
      ∀ r rn, r ∈ readValueIds g → getNode g r = some rn →
        ZeroInit g' (g.nodes.length + 3) bd rn.shape rn.ety r (g.nodes.length + 4) := by
  set L := g.nodes.length with hdefL
  set m1 : Model := ⟨g.nodes ++ [shapeOfNode iid nIds.shape.length, constVecNode 0,
    scalarConstNode 0, gatherNodeOf L (L + 1) (L + 2) [.fixed 1] .i64],
    g.params, g.outputs⟩ with hm1
  have hrlt : ∀ r ∈ readValueIds g, r < L := by
    intro r hrm
    obtain ⟨n, hn, -⟩ := mem_readValueIds.mp hrm
    exact getNode_lt_length hn
  have hg2m1 : ∀ r n, r ∈ readValueIds g → getNode g r = some n → getNode m1 r = some n := by
    intro r n hrm hn
    rw [hm1]
    rw [getNode_append_lt (hrlt r hrm)]
    exact hn
  have hm1len : L + 4 ≤ m1.nodes.length := by
    rw [hm1]
    show L + 4 ≤ (g.nodes ++ _).length
    rw [List.length_append]
    simp only [List.length_cons, List.length_nil]
    omega
  obtain ⟨g', hok, hme, hfr, hz⟩ := initAll_spec (L + 3) bd (L + 4) (readValueIds g) m1
    (by
      intro r hrm
      obtain ⟨rn, hrn, hbd⟩ := hranks r hrm
      exact ⟨by have := hrlt r hrm; omega, rn, hg2m1 r rn hrm hrn, hbd⟩)
    (readValueIds_nodup g) hm1len
  have hchain : ∀ t : Nat, t < 4 → getNode g' (L + t) =
      [shapeOfNode iid nIds.shape.length, constVecNode 0, scalarConstNode 0,
        gatherNodeOf L (L + 1) (L + 2) [.fixed 1] .i64][t]? := by
    intro t ht
    have hm1t : getNode m1 (L + t) =
        [shapeOfNode iid nIds.shape.length, constVecNode 0, scalarConstNode 0,
          gatherNodeOf L (L + 1) (L + 2) [.fixed 1] .i64][t]? := by
      rw [hm1]
      exact getNode_append_at (by simp only [List.length_cons, List.length_nil]; omega)
    match hval : [shapeOfNode iid nIds.shape.length, constVecNode 0, scalarConstNode 0,
        gatherNodeOf L (L + 1) (L + 2) [.fixed 1] .i64][t]? with
    | none =>
      exfalso
      have h4 : ([shapeOfNode iid nIds.shape.length, constVecNode 0, scalarConstNode 0,
          gatherNodeOf L (L + 1) (L + 2) [.fixed 1] .i64] : List Node).length ≤ t :=
        List.getElem?_eq_none_iff.mp hval
      simp only [List.length_cons, List.length_nil] at h4
      omega
    | some nd =>
      rw [hval] at hm1t
      exact hval ▸ hfr (L + t) nd (fun r hrm => by have := hrlt r hrm; omega) hm1t
  refine ⟨g', ?_, ?_, ?_, ?_, ?_, ?_, ?_⟩
  · unfold build_state_initializer
    simp only [hres, hnode]
    exact hok
  · refine MetaExt.trans (metaExt_append ?_) hme
    intro n hn
    rcases List.mem_cons.mp hn with rfl | hn
    · rfl
    rcases List.mem_cons.mp hn with rfl | hn
    · rfl
    rcases List.mem_cons.mp hn with rfl | hn
    · rfl
    rcases List.mem_cons.mp hn with rfl | hn
    · rfl
    · exact absurd hn (List.not_mem_nil _)
  · have := hchain 0 (by omega)
    rw [Nat.add_zero] at this
    rw [this]
    rfl
  · rw [hchain 1 (by omega)]
    rfl
  · rw [hchain 2 (by omega)]
    rfl
  · rw [hchain 3 (by omega)]
    rfl
  · intro r rn hrm hr
    exact hz r rn hrm (hg2m1 r rn hrm hr)

theorem initAll_frame {batchId bd : Nat} :
    ∀ {rids : List Nat} {mc mc' : Model},
    initAll batchId bd mc rids = .ok mc' →
    ∀ j n, (∀ r ∈ rids, r ≠ j) → getNode mc j = some n → getNode mc' j = some n
  | [], mc, mc', hok => by
    unfold initAll at hok
    injection hok with hok
    subst hok
    exact fun _ _ _ h => h
  | r :: rest, mc, mc', hok => by
    unfold initAll at hok
    match h1 : initOne batchId bd mc r with
    | .error e => simp only [h1] at hok; exact Except.noConfusion hok
    | .ok mcs =>
      simp only [h1] at hok
      intro j n hj hn
      refine initAll_frame hok j n (fun r' hm => hj r' (List.mem_cons_of_mem _ hm)) ?_
      exact initOne_frame h1 j n (Ne.symm (hj r (List.mem_cons_self _ _))) hn

theorem findInput_error_of_no_input {m : Model} {nm : String}
    (h : model_has_input m nm = false) :
    findInput m nm = .error (.lookupFailed nm) := by
  have hf : m.params.find? (fun i => (portNames m i).contains nm) = none :=
    List.find?_eq_none.mpr (fun x hx => by
      have hh := List.any_eq_false.mp h x hx
      simpa using hh)
  unfold findInput
  rw [hf]

/-- Destructuring a successful `fuse_cache_reorder` run. -/
theorem fuse_ok_cases {m : Model} {nk : List Nat} {kv : List String} {gd : Int}
    {m' : Model} {nk' : List Nat}
    (h : fuse_cache_reorder m nk kv gd = .ok (m', nk')) :
    model_has_name m "beam_idx" = false ∧
    ∃ iid n d, findInput m "input_ids" = .ok iid ∧ getNode m iid = some n ∧
      n.shape[0]? = some d ∧ nk' = nk ++ [m.nodes.length] ∧
      MetaExt ⟨m.nodes ++ [beamParamNode d], m.params ++ [m.nodes.length], m.outputs⟩ m' := by
  unfold fuse_cache_reorder at h
  split at h
  · exact absurd h (Except.noConfusion)
  · next hbm =>
    refine ⟨Bool.eq_false_iff.mpr hbm, ?_⟩
    match h2 : findInput m "input_ids" with
    | .error e => simp only [h2] at h; exact Except.noConfusion h
    | .ok iid =>
      simp only [h2] at h
      match h3 : getNode m iid with
      | none => simp only [h3] at h; exact Except.noConfusion h
      | some n =>
        simp only [h3] at h
        match h4 : n.shape[0]? with
        | none => simp only [h4] at h; exact Except.noConfusion h
        | some d =>
          simp only [h4] at h
          match h5 : fuseAll gd m.nodes.length
              ⟨m.nodes ++ [beamParamNode d], m.params ++ [m.nodes.length], m.outputs⟩ kv with
          | .error e => simp only [h5] at h; exact Except.noConfusion h
          | .ok m2 =>
            simp only [h5] at h
            injection h with h
            obtain ⟨hm, hnk⟩ := Prod.mk.inj h
            subst hm
            exact ⟨iid, n, d, rfl, h3, h4, hnk.symm, fuseAll_metaExt h5⟩

/-- Destructuring a successful `build_state_initializer` run. -/
theorem build_ok_cases {g : Model} {bd : Nat} {g' : Model}
    (h : build_state_initializer g bd = .ok g') :
    ∃ iid nIds, findInput g "input_ids" = .ok iid ∧ getNode g iid = some nIds ∧
      initAll (g.nodes.length + 3) bd
        ⟨g.nodes ++ [shapeOfNode iid nIds.shape.length, constVecNode 0, scalarConstNode 0,
          gatherNodeOf g.nodes.length (g.nodes.length + 1) (g.nodes.length + 2)
            [.fixed 1] .i64],
         g.params, g.outputs⟩ (readValueIds g) = .ok g' := by
  unfold build_state_initializer at h
  match h1 : findInput g "input_ids" with
  | .error e => simp only [h1] at h; exact Except.noConfusion h
  | .ok iid =>
    simp only [h1] at h
    match h2 : getNode g iid with
    | none => simp only [h2] at h; exact Except.noConfusion h
    | some nIds =>
      simp only [h2] at h
      exact ⟨iid, nIds, rfl, h2, h⟩

/-- C10: both `fuse_cache_reorder` and `build_state_initializer` read the
batch extent exclusively from axis 0 of the input named "input_ids",
whatever `gather_dim` / `batch_dim` is — the beam parameter's length is
dimension 0 of `input_ids` for every `gather_dim`, and the live batch node
is `Gather(ShapeOf(input_ids), [0], 0)` for every `batch_dim` — and both
functions fail on any graph without an "input_ids" input. -/
theorem C10_batch_read_from_axis_zero_of_input_ids :
    (∀ (m : Model) (nk : List Nat) (kv : List String) (gd : Int),
      model_has_input m "input_ids" = false →
        ∃ e, fuse_cache_reorder m nk kv gd = .error e) ∧
    (∀ (m : Model) (bd : Nat),
      model_has_input m "input_ids" = false →
        build_state_initializer m bd = .error (.lookupFailed "input_ids")) ∧
    (∀ (m : Model) (nk : List Nat) (kv : List String) (gd : Int)
        (m' : Model) (nk' : List Nat) (iid : Nat) (nIds : Node) (d : Dim),
      fuse_cache_reorder m nk kv gd = .ok (m', nk') →
      findInput m "input_ids" = .ok iid → getNode m iid = some nIds →
      nIds.shape[0]? = some d →
        ∃ bn, getNode m' m.nodes.length = some bn ∧ bn.shape = [d] ∧ bn.ety = .i32) ∧
    (∀ (g : Model) (bd : Nat) (g' : Model),
      build_state_initializer g bd = .ok g' →
        ∃ iid nIds, findInput g "input_ids" = .ok iid ∧ getNode g iid = some nIds ∧
          getNode g' g.nodes.length = some (shapeOfNode iid nIds.shape.length) ∧
          getNode g' (g.nodes.length + 1) = some (constVecNode 0) ∧
          getNode g' (g.nodes.length + 2) = some (scalarConstNode 0) ∧
          getNode g' (g.nodes.length + 3)
            = some (gatherNodeOf g.nodes.length (g.nodes.length + 1) (g.nodes.length + 2)
                [.fixed 1] .i64)) := by
  refine ⟨?_, ?_, ?_, ?_⟩
  · intro m nk kv gd h
    by_cases hb : model_has_name m "beam_idx" = true
    · exact ⟨.assertionFailed, fuse_assert_fail hb nk kv gd⟩
    · refine ⟨.lookupFailed "input_ids", ?_⟩
      unfold fuse_cache_reorder
      rw [if_neg hb]
      rw [findInput_error_of_no_input h]
  · intro m bd h
    unfold build_state_initializer
    rw [findInput_error_of_no_input h]
  · intro m nk kv gd m' nk' iid nIds d hok hres hnode hd
    obtain ⟨-, iid', n', d', hres', hnode', hd', -, hme⟩ := fuse_ok_cases hok
    rw [hres] at hres'
    injection hres' with hres'
    subst hres'
    rw [hnode] at hnode'
    injection hnode' with hnode'
    subst hnode'
    rw [hd] at hd'
    injection hd' with hd'
    subst hd'
    have hbeam : getNode ⟨m.nodes ++ [beamParamNode d], m.params ++ [m.nodes.length],
        m.outputs⟩ m.nodes.length = some (beamParamNode d) := by
      unfold getNode
      exact List.getElem?_concat_length _ _
    obtain ⟨bn, hbn, -, hsh, hety, -⟩ := hme.node_meta m.nodes.length (beamParamNode d) hbeam
    exact ⟨bn, hbn, hsh, hety⟩
  · intro g bd g' hok
    obtain ⟨iid, nIds, hres, hnode, hinit⟩ := build_ok_cases hok
    have hrlt : ∀ r ∈ readValueIds g, r < g.nodes.length := by
      intro r hrm
      obtain ⟨n, hn, -⟩ := mem_readValueIds.mp hrm
      exact getNode_lt_length hn
    have hchain : ∀ t : Nat, t < 4 →
        getNode g' (g.nodes.length + t) =
          [shapeOfNode iid nIds.shape.length, constVecNode 0, scalarConstNode 0,
            gatherNodeOf g.nodes.length (g.nodes.length + 1) (g.nodes.length + 2)
              [.fixed 1] .i64][t]? := by
      intro t ht
      have hm1t : getNode ⟨g.nodes ++ [shapeOfNode iid nIds.shape.length, constVecNode 0,
          scalarConstNode 0, gatherNodeOf g.nodes.length (g.nodes.length + 1)
            (g.nodes.length + 2) [.fixed 1] .i64], g.params, g.outputs⟩ (g.nodes.length + t) =
          [shapeOfNode iid nIds.shape.length, constVecNode 0, scalarConstNode 0,
            gatherNodeOf g.nodes.length (g.nodes.length + 1) (g.nodes.length + 2)
              [.fixed 1] .i64][t]? :=
        getNode_append_at (by simp only [List.length_cons, List.length_nil]; omega)
      match hval : [shapeOfNode iid nIds.shape.length, constVecNode 0, scalarConstNode 0,
          gatherNodeOf g.nodes.length (g.nodes.length + 1) (g.nodes.length + 2)
            [.fixed 1] .i64][t]? with
      | none =>
        exfalso
        have h4 : ([shapeOfNode iid nIds.shape.length, constVecNode 0, scalarConstNode 0,
            gatherNodeOf g.nodes.length (g.nodes.length + 1) (g.nodes.length + 2)
              [.fixed 1] .i64] : List Node).length ≤ t :=
          List.getElem?_eq_none_iff.mp hval
        simp only [List.length_cons, List.length_nil] at h4
        omega
      | some nd =>
        rw [hval] at hm1t
        exact hval ▸ initAll_frame hinit (g.nodes.length + t) nd
          (fun r hrm => by have := hrlt r hrm; omega) hm1t
    refine ⟨iid, nIds, hres, hnode, ?_, ?_, ?_, ?_⟩
    · have := hchain 0 (by omega)
      rw [Nat.add_zero] at this
      rw [this]
      rfl
    · rw [hchain 1 (by omega)]
      rfl
    · rw [hchain 2 (by omega)]
      rfl
    · rw [hchain 3 (by omega)]
      rfl

/-- C2: `make_stateful` runs `build_state_initializer` exactly when
`num_beams_and_batch` is `None` — the dynamic-batch result is the
initializer applied to the transform's output, while the pinned-batch result
is the transform's output untouched — and the initializer gives every
`ReadValue` node of its input graph a zero-valued broadcast of the node's
element type over a shape holding the live batch node at index `batch_dim`
and the declared minimum lengths elsewhere (the batch node being
`Gather(ShapeOf(input_ids), [0], 0)`). -/
theorem C2_make_stateful_invokes_initializer_iff_dynamic
    (tr : Model → List (String × String) → Model) (m : Model) (nk : List Nat)
    (kvIn kvOut : List String) (bd nah b : Nat)
    (st : Model × List String) (m2 : Model) (g : Model) (iid : Nat) (nIds : Node)
    (hpin1 : pinNotKvAll b (m, []) nk = .ok st)
    (hpin2 : pinKvAll (b * nah) bd st.1 ((kvIn.zip kvOut).map Prod.fst) = .ok m2)
    (hres : findInput g "input_ids" = .ok iid)
    (hnode : getNode g iid = some nIds)
    (hranks : ∀ r ∈ readValueIds g, ∃ rn, getNode g r = some rn ∧ bd < rn.shape.length) :
    (make_stateful tr m nk kvIn kvOut bd nah none =
      match build_state_initializer (tr m (kvIn.zip kvOut)) bd with
      | .error e => .error e
      | .ok m3 => .ok (m3, [])) ∧
    (make_stateful tr m nk kvIn kvOut bd nah (some b)
      = .ok (tr m2 (kvIn.zip kvOut), st.2)) ∧
    (∃ g', build_state_initializer g bd = .ok g' ∧
      getNode g' g.nodes.length = some (shapeOfNode iid nIds.shape.length) ∧
      getNode g' (g.nodes.length + 1) = some (constVecNode 0) ∧
      getNode g' (g.nodes.length + 2) = some (scalarConstNode 0) ∧
      getNode g' (g.nodes.length + 3)
        = some (gatherNodeOf g.nodes.length (g.nodes.length + 1) (g.nodes.length + 2)
            [.fixed 1] .i64) ∧
      ∀ r rn, r ∈ readValueIds g → getNode g r = some rn →
        ZeroInit g' (g.nodes.length + 3) bd rn.shape rn.ety r (g.nodes.length + 4)) := by
  refine ⟨rfl, ?_, ?_⟩
  · unfold make_stateful
    simp only [hpin1, hpin2]
  · obtain ⟨g', hok, -, hc0, hc1, hc2, hc3, hz⟩ :=
      build_state_initializer_spec g bd iid nIds hres hnode hranks
    exact ⟨g', hok, hc0, hc1, hc2, hc3, hz⟩

/-- A small post-transform graph: the `input_ids` parameter plus one
`ReadValue` state node feeding a result. -/
def exampleStateModel : Model :=
  ⟨[{ op := .param, args := [], shape := [.dyn 0, .dyn 0], ety := .i64,
      names := ["input_ids"] },
    { op := .readValue, args := [], shape := [.dyn 0, .fixed 8, .dyn 0, .fixed 64],
      ety := .f32, names := [] },
    { op := .generic "Result", args := [1], shape := [], ety := .f32, names := ["logits"] }],
   [0], [2]⟩

/-- Witness for C2 at concrete inputs: `exampleModel` for the pinning
branches (with the identity standing for the engine transform) and
`exampleStateModel` for the initializer. -/
theorem C2_witness :
    ((make_stateful (fun g _ => g) exampleModel [0, 1] ["past_key_values.0.key"]
        ["present.0.key"] 0 1 none =
      match build_state_initializer
          ((fun (g : Model) (_ : List (String × String)) => g) exampleModel
            (["past_key_values.0.key"].zip ["present.0.key"])) 0 with
      | .error e => .error e
      | .ok m3 => .ok (m3, [])) ∧
    (make_stateful (fun g _ => g) exampleModel [0, 1] ["past_key_values.0.key"]
        ["present.0.key"] 0 1 (some 3)
      = .ok ((fun (g : Model) (_ : List (String × String)) => g)
          (match pinKvAll (3 * 1) 0
              (match pinNotKvAll 3 (exampleModel, []) [0, 1] with
               | .ok st => st.1
               | .error _ => exampleModel)
              ((["past_key_values.0.key"].zip ["present.0.key"]).map Prod.fst) with
           | .ok m2 => m2
           | .error _ => exampleModel)
          (["past_key_values.0.key"].zip ["present.0.key"]),
         (match pinNotKvAll 3 (exampleModel, []) [0, 1] with
          | .ok st => st.2
          | .error _ => []))) ∧
    (∃ g', build_state_initializer exampleStateModel 0 = .ok g' ∧
      getNode g' exampleStateModel.nodes.length
        = some (shapeOfNode 0 ([Dim.dyn 0, Dim.dyn 0] : Shape).length) ∧
      getNode g' (exampleStateModel.nodes.length + 1) = some (constVecNode 0) ∧
      getNode g' (exampleStateModel.nodes.length + 2) = some (scalarConstNode 0) ∧
      getNode g' (exampleStateModel.nodes.length + 3)
        = some (gatherNodeOf exampleStateModel.nodes.length
            (exampleStateModel.nodes.length + 1) (exampleStateModel.nodes.length + 2)
            [.fixed 1] .i64) ∧
      ∀ r rn, r ∈ readValueIds exampleStateModel → getNode exampleStateModel r = some rn →
        ZeroInit g' (exampleStateModel.nodes.length + 3) 0 rn.shape rn.ety r
          (exampleStateModel.nodes.length + 4))) :=
  C2_make_stateful_invokes_initializer_iff_dynamic (fun g _ => g) exampleModel [0, 1]
    ["past_key_values.0.key"] ["present.0.key"] 0 1 3
    (match pinNotKvAll 3 (exampleModel, []) [0, 1] with
     | .ok st => st
     | .error _ => (exampleModel, []))
    (match pinKvAll (3 * 1) 0
        (match pinNotKvAll 3 (exampleModel, []) [0, 1] with
         | .ok st => st.1
         | .error _ => exampleModel)
        ((["past_key_values.0.key"].zip ["present.0.key"]).map Prod.fst) with
     | .ok m2 => m2
     | .error _ => exampleModel)
    exampleStateModel 0
    { op := .param, args := [], shape := [.dyn 0, .dyn 0], ety := .i64,
      names := ["input_ids"] }
    (by rfl) (by rfl) (by rfl) (by rfl)
    (by
      intro r hrm
      have hrv : readValueIds exampleStateModel = [1] := by rfl
      rw [hrv, List.mem_singleton] at hrm
      subst hrm
      exact ⟨_, by rfl, by decide⟩)

/-! ### Batch pinning machinery -/

/-- What the not-key-value pinning loop does to one node. -/
def pinNotKvStep (b : Nat) (n : Node) : Node :=
  if n.shape.length ≤ 2 then { n with shape := n.shape.set 0 (.fixed b) } else n

/-- What the key-value pinning loop does to one node. -/
def pinKvStep (v bd : Nat) (n : Node) : Node :=
  { n with shape := n.shape.set bd (.fixed v) }

/-- The warning the not-key-value loop emits for one input, if any. -/
def warnOf (m : Model) (pid : Nat) : Option String :=
  match getNode m pid with
  | some n => if 2 < n.shape.length then some (warnMsg (n.names.headD "")) else none
  | none => none

theorem pinNotKvStep_idem (b : Nat) (n : Node) :
    pinNotKvStep b (pinNotKvStep b n) = pinNotKvStep b n := by
  unfold pinNotKvStep
  by_cases h : n.shape.length ≤ 2
  · rw [if_pos h]
    rw [if_pos (by simpa using h)]
    simp [List.set_set]
  · rw [if_neg h, if_neg h]

theorem pinKvStep_idem (v bd : Nat) (n : Node) :
    pinKvStep v bd (pinKvStep v bd n) = pinKvStep v bd n := by
  unfold pinKvStep
  simp [List.set_set]

theorem filterMap_congr_mem {α β : Type} {f g : α → Option β} :
    ∀ {l : List α}, (∀ a ∈ l, f a = g a) → l.filterMap f = l.filterMap g
  | [], _ => rfl
  | a :: l, h => by
    rw [List.filterMap_cons, List.filterMap_cons, h a (List.mem_cons_self a l),
      filterMap_congr_mem (fun b hb => h b (List.mem_cons_of_mem a hb))]

theorem getNode_set_char {m : Model} {pid : Nat} {nn : Node}
    (hlt : pid < m.nodes.length) (j : Nat) :
    getNode { m with nodes := m.nodes.set pid nn } j
      = if j = pid then some nn else getNode m j := by
  by_cases hj : j = pid
  · subst hj
    rw [if_pos rfl]
    exact List.getElem?_set_self hlt
  · rw [if_neg hj]
    exact List.getElem?_set_ne (fun hh => hj hh.symm)

theorem portNames_set_eq {m : Model} {pid : Nat} {n nn : Node}
    (hn : getNode m pid = some n) (hnames : nn.names = n.names) (q : Nat) :
    portNames { m with nodes := m.nodes.set pid nn } q = portNames m q := by
  unfold portNames
  rw [getNode_set_char (getNode_lt_length hn) q]
  by_cases hq : q = pid
  · rw [if_pos hq, hq, hn]
    show nn.names = n.names
    exact hnames
  · rw [if_neg hq]

theorem findInput_set_eq {m : Model} {pid : Nat} {n nn : Node}
    (hn : getNode m pid = some n) (hnames : nn.names = n.names) (nm : String) :
    findInput { m with nodes := m.nodes.set pid nn } nm = findInput m nm := by
  unfold findInput
  rw [find?_congr_mem (fun q _ => by rw [portNames_set_eq hn hnames q])]

theorem warnOf_set_eq {m : Model} {pid : Nat} {n nn : Node}
    (hn : getNode m pid = some n) (hlen : nn.shape.length = n.shape.length)
    (hnames : nn.names = n.names) (q : Nat) :
    warnOf { m with nodes := m.nodes.set pid nn } q = warnOf m q := by
  unfold warnOf
  rw [getNode_set_char (getNode_lt_length hn) q]
  by_cases hq : q = pid
  · rw [if_pos hq, hq, hn]
    show (if 2 < nn.shape.length then some (warnMsg (nn.names.headD "")) else none)
      = if 2 < n.shape.length then some (warnMsg (n.names.headD "")) else none
    rw [hlen, hnames]
  · rw [if_neg hq]

/-- The not-key-value pinning loop: succeeds when every listed port exists,
has a nonempty shape if its rank is at most 2 and a name otherwise; pins
dimension 0 of the rank ≤of-2 inputs, leaves the others untouched and records
their warnings in traversal order. -/
theorem pinNotKvAll_spec (b : Nat) :
    ∀ (nk : List Nat) (m : Model) (w0 : List String),
    (∀ pid ∈ nk, ∃ n, getNode m pid = some n ∧ (n.shape.length ≤ 2 → n.shape ≠ []) ∧
      (2 < n.shape.length → n.names ≠ [])) →
    ∃ m1, pinNotKvAll b (m, w0) nk = .ok (m1, w0 ++ nk.filterMap (warnOf m)) ∧
      m1.params = m.params ∧ m1.outputs = m.outputs ∧
      ∀ j, getNode m1 j = if j ∈ nk then (getNode m j).map (pinNotKvStep b) else getNode m j
  | [], m, w0, _ => by
    refine ⟨m, ?_, rfl, rfl, ?_⟩
    · show pinNotKvAll b (m, w0) [] = Except.ok (m, w0 ++ List.filterMap (warnOf m) [])
      rw [List.filterMap_nil, List.append_nil]
      rfl
    · intro j
      rw [if_neg (List.not_mem_nil j)]
  | pid :: rest, m, w0, hr => by
    obtain ⟨n, hn, hsh, hnm⟩ := hr pid (List.mem_cons_self _ _)
    have hlt : pid < m.nodes.length := getNode_lt_length hn
    by_cases h2 : n.shape.length ≤ 2
    · -- pin dimension 0
      have hne : n.shape ≠ [] := hsh h2
      obtain ⟨d0, ds, hshape⟩ : ∃ d0 ds, n.shape = d0 :: ds := by
        match hs : n.shape with
        | [] => exact absurd hs hne
        | d0 :: ds => exact ⟨d0, ds, rfl⟩
      have hstep1 : pinNotKvOne b (m, w0) pid =
          Except.ok ({ m with nodes := m.nodes.set pid (pinNotKvStep b n) }, w0) := by
        unfold pinNotKvOne pinNotKvStep
        simp only [hn]
        rw [if_pos h2, if_pos h2, hshape]
      set mset : Model := { m with nodes := m.nodes.set pid (pinNotKvStep b n) } with hmset
      have hchar : ∀ j, getNode mset j =
          if j = pid then some (pinNotKvStep b n) else getNode m j := by
        intro j
        rw [hmset]
        exact getNode_set_char hlt j
      have hstepnames : (pinNotKvStep b n).names = n.names := by
        unfold pinNotKvStep
        rw [if_pos h2]
      have hsteplen : (pinNotKvStep b n).shape.length = n.shape.length := by
        unfold pinNotKvStep
        rw [if_pos h2]
        show (n.shape.set 0 _).length = _
        rw [List.length_set]
      have hrest : ∀ pid' ∈ rest, ∃ n', getNode mset pid' = some n' ∧
          (n'.shape.length ≤ 2 → n'.shape ≠ []) ∧ (2 < n'.shape.length → n'.names ≠ []) := by
        intro pid' hm'
        rw [hchar pid']
        by_cases hp : pid' = pid
        · rw [if_pos hp]
          refine ⟨pinNotKvStep b n, rfl, ?_, ?_⟩
          · intro _
            show (pinNotKvStep b n).shape ≠ []
            unfold pinNotKvStep
            rw [if_pos h2, hshape]
            simp
          · intro h
            rw [hsteplen] at h
            exact absurd h (by omega)
        · rw [if_neg hp]
          exact hr pid' (List.mem_cons_of_mem _ hm')
      obtain ⟨m1, hok, hp1, hp2, hcharf⟩ := pinNotKvAll_spec b rest mset w0 hrest
      have hwof : ∀ q ∈ rest, warnOf mset q = warnOf m q := by
        intro q _
        rw [hmset]
        exact warnOf_set_eq hn hsteplen hstepnames q
      have hwarnpid : warnOf m pid = none := by
        unfold warnOf
        rw [hn]
        show (if 2 < n.shape.length then some (warnMsg (n.names.headD "")) else none) = none
        rw [if_neg (by omega)]
      refine ⟨m1, ?_, ?_, ?_, ?_⟩
      · show pinNotKvAll b (m, w0) (pid :: rest) = _
        unfold pinNotKvAll
        rw [hstep1]
        show pinNotKvAll b (mset, w0) rest
          = Except.ok (m1, w0 ++ (pid :: rest).filterMap (warnOf m))
        rw [hok, filterMap_congr_mem hwof]
        rw [show (pid :: rest).filterMap (warnOf m) = rest.filterMap (warnOf m) from by
          rw [List.filterMap_cons, hwarnpid]]
      · rw [hp1, hmset]
      · rw [hp2, hmset]
      · intro j
        rw [hcharf j, hchar j]
        by_cases hjr : j ∈ rest
        · rw [if_pos hjr, if_pos (List.mem_cons_of_mem _ hjr)]
          by_cases hjp : j = pid
          · subst hjp
            rw [if_pos rfl, hn]
            show some (pinNotKvStep b (pinNotKvStep b n)) = some (pinNotKvStep b n)
            rw [pinNotKvStep_idem]
          · rw [if_neg hjp]
        · rw [if_neg hjr]
          by_cases hjp : j = pid
          · subst hjp
            rw [if_pos rfl, if_pos (List.mem_cons_self _ _), hn]
            rfl
          · rw [if_neg hjp, if_neg (by
              intro hmem
              rcases List.mem_cons.mp hmem with h | h
              · exact hjp h
              · exact hjr h)]
    · -- rank above 2: warn, leave the node alone
      have hnames : n.names ≠ [] := hnm (by omega)
      have hstep1 : ∃ nm0 tl, n.names = nm0 :: tl ∧
          pinNotKvOne b (m, w0) pid = .ok (m, w0 ++ [warnMsg nm0]) := by
        match hnm0 : n.names with
        | [] => exact absurd hnm0 hnames
        | nm0 :: tl =>
          refine ⟨nm0, tl, rfl, ?_⟩
          unfold pinNotKvOne
          simp only [hn]
          rw [if_neg h2, hnm0]
      obtain ⟨nm0, tl, hnm0, hstep1⟩ := hstep1
      obtain ⟨m1, hok, hp1, hp2, hcharf⟩ := pinNotKvAll_spec b rest m (w0 ++ [warnMsg nm0])
        (fun pid' hm' => hr pid' (List.mem_cons_of_mem _ hm'))
      have hwarnpid : warnOf m pid = some (warnMsg nm0) := by
        unfold warnOf
        rw [hn]
        show (if 2 < n.shape.length then some (warnMsg (n.names.headD "")) else none)
          = some (warnMsg nm0)
        rw [if_pos (by omega), hnm0]
        rfl
      refine ⟨m1, ?_, hp1, hp2, ?_⟩
      · show pinNotKvAll b (m, w0) (pid :: rest) = _
        unfold pinNotKvAll
        rw [hstep1]
        show pinNotKvAll b (m, w0 ++ [warnMsg nm0]) rest
          = Except.ok (m1, w0 ++ (pid :: rest).filterMap (warnOf m))
        rw [hok]
        rw [show (pid :: rest).filterMap (warnOf m)
            = warnMsg nm0 :: rest.filterMap (warnOf m) from by
          rw [List.filterMap_cons, hwarnpid]]
        simp [List.append_assoc]
      · intro j
        rw [hcharf j]
        by_cases hjr : j ∈ rest
        · rw [if_pos hjr, if_pos (List.mem_cons_of_mem _ hjr)]
        · rw [if_neg hjr]
          by_cases hjp : j = pid
          · subst hjp
            rw [if_pos (List.mem_cons_self _ _), hn]
            show some n = some (pinNotKvStep b n)
            unfold pinNotKvStep
            rw [if_neg h2]
          · rw [if_neg (by
              intro hmem
              rcases List.mem_cons.mp hmem with h | h
              · exact hjp h
              · exact hjr h)]

/-- The key-value pinning loop: every listed name resolving to a port of
rank above `bd` gets that port's `bd`-th extent pinned; everything else is
untouched. -/
instance {e a : Type} [DecidableEq e] [DecidableEq a] : DecidableEq (Except e a) := fun x y =>
  match x, y with
  | .ok u, .ok v =>
    if h : u = v then isTrue (by rw [h]) else isFalse (fun hh => h (by injection hh))
  | .error u, .error v =>
    if h : u = v then isTrue (by rw [h]) else isFalse (fun hh => h (by injection hh))
  | .ok _, .error _ => isFalse Except.noConfusion
  | .error _, .ok _ => isFalse Except.noConfusion

theorem pinKvAll_spec (v bd : Nat) :
    ∀ (names : List String) (m : Model),
    (∀ nm ∈ names, ∃ pid n, findInput m nm = .ok pid ∧ getNode m pid = some n ∧
      bd < n.shape.length) →
    ∃ m2, pinKvAll v bd m names = .ok m2 ∧
      m2.params = m.params ∧ m2.outputs = m.outputs ∧
      ∀ j, getNode m2 j =
        if ∃ nm ∈ names, findInput m nm = .ok j then (getNode m j).map (pinKvStep v bd)
        else getNode m j
  | [], m, _ => by
    refine ⟨m, rfl, rfl, rfl, ?_⟩
    intro j
    rw [if_neg (by rintro ⟨nm, hnm, -⟩; exact List.not_mem_nil nm hnm)]
  | nm :: rest, m, hr => by
    obtain ⟨pid, n, hres, hn, hbd⟩ := hr nm (List.mem_cons_self _ _)
    have hlt : pid < m.nodes.length := getNode_lt_length hn
    have hstep1 : pinKvOne v bd m nm =
        .ok { m with nodes := m.nodes.set pid (pinKvStep v bd n) } := by
      unfold pinKvOne
      simp only [hres, hn]
      rw [if_pos hbd]
      rfl
    set mset : Model := { m with nodes := m.nodes.set pid (pinKvStep v bd n) } with hmset
    have hchar : ∀ j, getNode mset j =
        if j = pid then some (pinKvStep v bd n) else getNode m j := by
      intro j
      rw [hmset]
      exact getNode_set_char hlt j
    have hstepnames : (pinKvStep v bd n).names = n.names := rfl
    have hsteplen : (pinKvStep v bd n).shape.length = n.shape.length := by
      show (n.shape.set bd _).length = _
      rw [List.length_set]
    have hfi : ∀ nm', findInput mset nm' = findInput m nm' := by
      intro nm'
      rw [hmset]
      exact findInput_set_eq hn hstepnames nm'
    have hrest : ∀ nm' ∈ rest, ∃ pid' n', findInput mset nm' = .ok pid' ∧
        getNode mset pid' = some n' ∧ bd < n'.shape.length := by
      intro nm' hm'
      obtain ⟨pid', n', hres', hn', hbd'⟩ := hr nm' (List.mem_cons_of_mem _ hm')
      rw [hfi nm']
      by_cases hp : pid' = pid
      · refine ⟨pid', pinKvStep v bd n, hres', ?_, ?_⟩
        · rw [hchar pid', if_pos hp]
        · rw [hsteplen]
          exact hbd
      · refine ⟨pid', n', hres', ?_, hbd'⟩
        rw [hchar pid', if_neg hp]
        exact hn'
    obtain ⟨m2, hok, hp1, hp2, hcharf⟩ := pinKvAll_spec v bd rest mset hrest
    refine ⟨m2, ?_, ?_, ?_, ?_⟩
    · show pinKvAll v bd m (nm :: rest) = _
      unfold pinKvAll
      rw [hstep1]
      show pinKvAll v bd mset rest = _
      exact hok
    · rw [hp1, hmset]
    · rw [hp2, hmset]
    · intro j
      rw [hcharf j, hchar j]
      have hcond : (∃ nm' ∈ rest, findInput mset nm' = .ok j) ↔
          (∃ nm' ∈ rest, findInput m nm' = .ok j) := by
        constructor
        · rintro ⟨nm', hm', h⟩
          exact ⟨nm', hm', by rw [← hfi nm']; exact h⟩
        · rintro ⟨nm', hm', h⟩
          exact ⟨nm', hm', by rw [hfi nm']; exact h⟩
      by_cases hjr : ∃ nm' ∈ rest, findInput m nm' = .ok j
      · rw [if_pos (hcond.mpr hjr)]
        rw [if_pos (show ∃ nm' ∈ nm :: rest, findInput m nm' = .ok j from by
          obtain ⟨nm', hm', h⟩ := hjr
          exact ⟨nm', List.mem_cons_of_mem _ hm', h⟩)]
        by_cases hjp : j = pid
        · subst hjp
          rw [if_pos rfl, hn]
          show some (pinKvStep v bd (pinKvStep v bd n)) = some (pinKvStep v bd n)
          rw [pinKvStep_idem]
        · rw [if_neg hjp]
      · rw [if_neg (fun h => hjr (hcond.mp h))]
        by_cases hjp : j = pid
        · subst hjp
          rw [if_pos rfl, hn]
          rw [if_pos (show ∃ nm' ∈ nm :: rest, findInput m nm' = .ok j from
            ⟨nm, List.mem_cons_self _ _, hres⟩)]
          rfl
        · rw [if_neg hjp]
          rw [if_neg (by
            rintro ⟨nm', hm', h⟩
            rcases List.mem_cons.mp hm' with hh | hh
            · subst hh
              rw [hres] at h
              injection h with h
              exact hjp h.symm
            · exact hjr ⟨nm', hh, h⟩)]

theorem pinNotKvStep_names (b : Nat) (n : Node) : (pinNotKvStep b n).names = n.names := by
  unfold pinNotKvStep
  split <;> rfl

/-- Full characterization of the pinned-batch path of `make_stateful`: the
result is the engine transform applied to the graph whose key-value inputs
(the first components of the positional zip) have their `bd` extent pinned to
`b * nah` and whose rank ≤ 2 non-key-value inputs have dimension 0 pinned to
`b`, together with the warnings of the higher-rank non-key-value inputs. -/
theorem make_stateful_pinned_spec
    (tr : Model → List (String × String) → Model) (m : Model) (nk : List Nat)
    (kvIn kvOut : List String) (bd nah b : Nat)
    (hnk : ∀ pid ∈ nk, ∃ n, getNode m pid = some n ∧ (n.shape.length ≤ 2 → n.shape ≠ []) ∧
      (2 < n.shape.length → n.names ≠ []))
    (hkv : ∀ nm ∈ (kvIn.zip kvOut).map Prod.fst, ∃ pid n, findInput m nm = .ok pid ∧
      getNode m pid = some n ∧ bd < n.shape.length)
    (hdisj : ∀ pid ∈ nk, ∀ nm ∈ (kvIn.zip kvOut).map Prod.fst, findInput m nm ≠ .ok pid) :
    ∃ m2, make_stateful tr m nk kvIn kvOut bd nah (some b)
        = .ok (tr m2 (kvIn.zip kvOut), nk.filterMap (warnOf m)) ∧
      ∀ j, getNode m2 j =
        if ∃ nm ∈ (kvIn.zip kvOut).map Prod.fst, findInput m nm = .ok j then
          (getNode m j).map (pinKvStep (b * nah) bd)
        else if j ∈ nk then (getNode m j).map (pinNotKvStep b) else getNode m j := by
  obtain ⟨m1, hpin1, hp1params, hp1outs, char1⟩ := pinNotKvAll_spec b nk m [] hnk
  have hport1 : ∀ q, portNames m1 q = portNames m q := by
    intro q
    unfold portNames
    rw [char1 q]
    by_cases hq : q ∈ nk
    · rw [if_pos hq]
      match getNode m q with
      | none => rfl
      | some nq =>
        show (pinNotKvStep b nq).names = nq.names
        exact pinNotKvStep_names b nq
    · rw [if_neg hq]
  have hfind1 : ∀ nm, findInput m1 nm = findInput m nm := by
    intro nm
    unfold findInput
    rw [hp1params, find?_congr_mem (fun q _ => by rw [hport1 q])]
  have hkv1 : ∀ nm ∈ (kvIn.zip kvOut).map Prod.fst, ∃ pid n, findInput m1 nm = .ok pid ∧
      getNode m1 pid = some n ∧ bd < n.shape.length := by
    intro nm hnm
    obtain ⟨pid, n, hres, hn, hbd⟩ := hkv nm hnm
    refine ⟨pid, n, by rw [hfind1]; exact hres, ?_, hbd⟩
    rw [char1 pid, if_neg (fun hmem => hdisj pid hmem nm hnm hres)]
    exact hn
  obtain ⟨m2, hpin2, -, -, char2⟩ := pinKvAll_spec (b * nah) bd
    ((kvIn.zip kvOut).map Prod.fst) m1 hkv1
  refine ⟨m2, ?_, ?_⟩
  · unfold make_stateful
    simp only [hpin1, hpin2, List.nil_append]
  · intro j
    rw [char2 j]
    have hcnd : (∃ nm ∈ (kvIn.zip kvOut).map Prod.fst, findInput m1 nm = .ok j) ↔
        (∃ nm ∈ (kvIn.zip kvOut).map Prod.fst, findInput m nm = .ok j) := by
      constructor
      · rintro ⟨nm, hnm, h⟩
        exact ⟨nm, hnm, by rw [← hfind1]; exact h⟩
      · rintro ⟨nm, hnm, h⟩
        exact ⟨nm, hnm, by rw [hfind1]; exact h⟩
    by_cases hc : ∃ nm ∈ (kvIn.zip kvOut).map Prod.fst, findInput m nm = .ok j
    · rw [if_pos (hcnd.mpr hc), if_pos hc]
      obtain ⟨nm, hnm, hok⟩ := hc
      rw [char1 j, if_neg (fun hmem => hdisj j hmem nm hnm hok)]
    · rw [if_neg (fun h => hc (hcnd.mp h)), if_neg hc]
      exact char1 j

/-- C4: with a pinned `num_beams_and_batch = b` and `num_attention_heads =
nah`, `make_stateful` sets dimension 0 of every non-key-value input of rank
at most 2 to exactly `b`, leaves higher-rank non-key-value inputs unchanged,
and sets the `batch_dim` extent of every key-value input to exactly
`b * nah`, before handing the graph to the engine transform. -/
theorem C4_make_stateful_pins_batch_dims
    (tr : Model → List (String × String) → Model) (m : Model) (nk : List Nat)
    (kvIn kvOut : List String) (bd nah b : Nat)
    (hlen : kvIn.length = kvOut.length)
    (hnk : ∀ pid ∈ nk, ∃ n, getNode m pid = some n ∧ (n.shape.length ≤ 2 → n.shape ≠ []) ∧
      (2 < n.shape.length → n.names ≠ []))
    (hkv : ∀ nm ∈ kvIn, ∃ pid n, findInput m nm = .ok pid ∧
      getNode m pid = some n ∧ bd < n.shape.length)
    (hdisj : ∀ pid ∈ nk, ∀ nm ∈ kvIn, findInput m nm ≠ .ok pid) :
    ∃ m2 w, make_stateful tr m nk kvIn kvOut bd nah (some b)
        = .ok (tr m2 (kvIn.zip kvOut), w) ∧
      (∀ pid n, pid ∈ nk → getNode m pid = some n →
        (n.shape.length ≤ 2 →
          getNode m2 pid = some { n with shape := n.shape.set 0 (.fixed b) }) ∧
        (2 < n.shape.length → getNode m2 pid = some n)) ∧
      (∀ nm pid n, nm ∈ kvIn → findInput m nm = .ok pid → getNode m pid = some n →
        getNode m2 pid = some { n with shape := n.shape.set bd (.fixed (b * nah)) }) := by
  have hfst : (kvIn.zip kvOut).map Prod.fst = kvIn :=
    List.map_fst_zip kvIn kvOut (Nat.le_of_eq hlen)
  obtain ⟨m2, heq, char⟩ := make_stateful_pinned_spec tr m nk kvIn kvOut bd nah b hnk
    (by rw [hfst]; exact hkv) (by rw [hfst]; exact hdisj)
  refine ⟨m2, nk.filterMap (warnOf m), heq, ?_, ?_⟩
  · intro pid n hmem hn
    have hc : ¬ ∃ nm ∈ (kvIn.zip kvOut).map Prod.fst, findInput m nm = .ok pid := by
      rintro ⟨nm, hnm, hok⟩
      rw [hfst] at hnm
      exact hdisj pid hmem nm hnm hok
    have hpin := char pid
    rw [if_neg hc, if_pos hmem, hn] at hpin
    constructor
    · intro hr
      rw [hpin]
      show some (pinNotKvStep b n) = _
      unfold pinNotKvStep
      rw [if_pos hr]
    · intro hr
      rw [hpin]
      show some (pinNotKvStep b n) = some n
      unfold pinNotKvStep
      rw [if_neg (by omega)]
  · intro nm pid n hnm hres hn
    have hc : ∃ nm' ∈ (kvIn.zip kvOut).map Prod.fst, findInput m nm' = .ok pid := by
      rw [hfst]
      exact ⟨nm, hnm, hres⟩
    have hpin := char pid
    rw [if_pos hc, hn] at hpin
    exact hpin

/-- C7: during batch pinning, a non-key-value input of rank above 2 only
triggers a recorded warning: its node is left verbatim and the transform
still completes. -/
theorem C7_rank_warning_is_nonfatal
    (tr : Model → List (String × String) → Model) (m : Model) (nk : List Nat)
    (kvIn kvOut : List String) (bd nah b : Nat)
    (pid0 : Nat) (n0 : Node) (nm0 : String) (tl : List String)
    (hnk : ∀ pid ∈ nk, ∃ n, getNode m pid = some n ∧ (n.shape.length ≤ 2 → n.shape ≠ []) ∧
      (2 < n.shape.length → n.names ≠ []))
    (hkv : ∀ nm ∈ (kvIn.zip kvOut).map Prod.fst, ∃ pid n, findInput m nm = .ok pid ∧
      getNode m pid = some n ∧ bd < n.shape.length)
    (hdisj : ∀ pid ∈ nk, ∀ nm ∈ (kvIn.zip kvOut).map Prod.fst, findInput m nm ≠ .ok pid)
    (hmem : pid0 ∈ nk) (hn0 : getNode m pid0 = some n0)
    (hrank : 2 < n0.shape.length) (hnames : n0.names = nm0 :: tl) :
    ∃ m2 w, make_stateful tr m nk kvIn kvOut bd nah (some b)
        = .ok (tr m2 (kvIn.zip kvOut), w) ∧
      getNode m2 pid0 = some n0 ∧ warnMsg nm0 ∈ w := by
  obtain ⟨m2, heq, char⟩ := make_stateful_pinned_spec tr m nk kvIn kvOut bd nah b
    hnk hkv hdisj
  refine ⟨m2, nk.filterMap (warnOf m), heq, ?_, ?_⟩
  · have hc : ¬ ∃ nm ∈ (kvIn.zip kvOut).map Prod.fst, findInput m nm = .ok pid0 := by
      rintro ⟨nm, hnm, hok⟩
      exact hdisj pid0 hmem nm hnm hok
    have hpin := char pid0
    rw [if_neg hc, if_pos hmem, hn0] at hpin
    rw [hpin]
    show some (pinNotKvStep b n0) = some n0
    unfold pinNotKvStep
    rw [if_neg (by omega)]
  · rw [List.mem_filterMap]
    refine ⟨pid0, hmem, ?_⟩
    unfold warnOf
    rw [hn0]
    show (if 2 < n0.shape.length then some (warnMsg (n0.names.headD "")) else none)
      = some (warnMsg nm0)
    rw [if_pos hrank, hnames]
    rfl

/-- C9: the input→output pairing of `make_stateful` is a positional zip, so
with more key-value input names than output names no error is raised: only
the first `min` pairs enter the map (and, in the pinned case, only those
inputs are pinned), and a surplus key-value input is silently left alone. -/
theorem C9_surplus_kv_names_silently_ignored
    (tr : Model → List (String × String) → Model) (m : Model) (nk : List Nat)
    (kvIn kvOut : List String) (bd nah b : Nat)
    (pid0 : Nat) (n0 : Node) (nm0 : String)
    (hshort : kvOut.length < kvIn.length)
    (hnk : ∀ pid ∈ nk, ∃ n, getNode m pid = some n ∧ (n.shape.length ≤ 2 → n.shape ≠ []) ∧
      (2 < n.shape.length → n.names ≠ []))
    (hkv : ∀ nm ∈ (kvIn.zip kvOut).map Prod.fst, ∃ pid n, findInput m nm = .ok pid ∧
      getNode m pid = some n ∧ bd < n.shape.length)
    (hdisj : ∀ pid ∈ nk, ∀ nm ∈ (kvIn.zip kvOut).map Prod.fst, findInput m nm ≠ .ok pid)
    (_hsur : nm0 ∈ kvIn.drop kvOut.length)
    (_hres0 : findInput m nm0 = .ok pid0) (hn0 : getNode m pid0 = some n0)
    (hnotnk : pid0 ∉ nk)
    (hnotzip : ∀ nm ∈ (kvIn.zip kvOut).map Prod.fst, findInput m nm ≠ .ok pid0) :
    (kvIn.zip kvOut).length = kvOut.length ∧
    ∃ m2 w, make_stateful tr m nk kvIn kvOut bd nah (some b)
        = .ok (tr m2 (kvIn.zip kvOut), w) ∧
      getNode m2 pid0 = some n0 := by
  refine ⟨?_, ?_⟩
  · rw [List.length_zip]
    exact Nat.min_eq_right (Nat.le_of_lt hshort)
  · obtain ⟨m2, heq, char⟩ := make_stateful_pinned_spec tr m nk kvIn kvOut bd nah b
      hnk hkv hdisj
    refine ⟨m2, nk.filterMap (warnOf m), heq, ?_⟩
    have hc : ¬ ∃ nm ∈ (kvIn.zip kvOut).map Prod.fst, findInput m nm = .ok pid0 := by
      rintro ⟨nm, hnm, hok⟩
      exact hnotzip nm hnm hok
    have hpin := char pid0
    rw [if_neg hc, if_neg hnotnk] at hpin
    rw [hpin]
    exact hn0

/-- Witness for C4 at `exampleModel` with the identity as engine transform:
`input_ids` and `attention_mask` (rank 2) get axis 0 pinned to 3, the
key-value input gets axis 2 pinned to 3 * 8. -/
theorem C4_witness :
    ∃ m2 w, make_stateful (fun g _ => g) exampleModel [0, 1] ["past_key_values.0.key"]
        ["present.0.key"] 2 8 (some 3) = .ok (m2, w) ∧
      (∀ pid n, pid ∈ [0, 1] → getNode exampleModel pid = some n →
        (n.shape.length ≤ 2 →
          getNode m2 pid = some { n with shape := n.shape.set 0 (.fixed 3) }) ∧
        (2 < n.shape.length → getNode m2 pid = some n)) ∧
      (∀ nm pid n, nm ∈ ["past_key_values.0.key"] → findInput exampleModel nm = .ok pid →
        getNode exampleModel pid = some n →
        getNode m2 pid = some { n with shape := n.shape.set 2 (.fixed (3 * 8)) }) :=
  C4_make_stateful_pins_batch_dims (fun g _ => g) exampleModel [0, 1]
    ["past_key_values.0.key"] ["present.0.key"] 2 8 3 rfl
    (by
      intro pid hpid
      rcases List.mem_cons.mp hpid with rfl | hpid
      · exact ⟨_, rfl, by decide, by decide⟩
      · rcases List.mem_cons.mp hpid with rfl | hpid
        · exact ⟨_, rfl, by decide, by decide⟩
        · cases hpid)
    (by
      intro nm hnm
      rw [List.mem_singleton] at hnm
      subst hnm
      exact ⟨2, _, rfl, rfl, by decide⟩)
    (by decide)

/-- A rank-3 parameter node named `pixel_values`. -/
def pixelNode : Node :=
  { op := .param, args := [], shape := [.dyn 0, .dyn 0, .fixed 4], ety := .f32,
    names := ["pixel_values"] }

/-- A graph with a rank-3 non-key-value input, for the warning path. -/
def rank3Model : Model :=
  ⟨[pixelNode,
    { op := .param, args := [], shape := [.dyn 0, .fixed 8, .dyn 0, .fixed 64], ety := .f32,
      names := ["past_key_values.0.key"] },
    { op := .generic "Result", args := [0], shape := [], ety := .f32, names := ["out"] }],
   [0, 1], [2]⟩

/-- Witness for C7 at `rank3Model`: pinning succeeds, the rank-3 input
`pixel_values` is untouched and its warning is recorded. -/
theorem C7_witness :
    ∃ m2 w, make_stateful (fun g _ => g) rank3Model [0] ["past_key_values.0.key"]
        ["present.0.key"] 2 8 (some 3) = .ok (m2, w) ∧
      getNode m2 0 = some pixelNode ∧
      warnMsg "pixel_values" ∈ w :=
  C7_rank_warning_is_nonfatal (fun g _ => g) rank3Model [0]
    ["past_key_values.0.key"] ["present.0.key"] 2 8 3 0
    pixelNode "pixel_values" []
    (by
      intro pid hpid
      rcases List.mem_cons.mp hpid with rfl | hpid
      · exact ⟨_, rfl, by decide, by decide⟩
      · cases hpid)
    (by
      intro nm hnm
      rw [show (["past_key_values.0.key"].zip ["present.0.key"]).map Prod.fst
        = ["past_key_values.0.key"] from rfl] at hnm
      rw [List.mem_singleton] at hnm
      subst hnm
      exact ⟨1, _, rfl, rfl, by decide⟩)
    (by decide)
    (by decide) rfl (by decide) rfl

/-- The surplus key-value parameter node of `twoKvModel`. -/
def surplusKvNode : Node :=
  { op := .param, args := [], shape := [.dyn 0, .fixed 8, .dyn 0, .fixed 64], ety := .f32,
    names := ["past_key_values.1.key"] }

/-- A graph with two key-value inputs, for the surplus-name scenario. -/
def twoKvModel : Model :=
  ⟨[{ op := .param, args := [], shape := [.dyn 0, .dyn 0], ety := .i64,
      names := ["input_ids"] },
    { op := .param, args := [], shape := [.dyn 0, .fixed 8, .dyn 0, .fixed 64], ety := .f32,
      names := ["past_key_values.0.key"] },
    surplusKvNode,
    { op := .generic "Result", args := [1], shape := [], ety := .f32, names := ["out"] }],
   [0, 1, 2], [3]⟩

/-- Witness for C9 at `twoKvModel`: two key-value input names, one output
name; the zip has one pair, the transform succeeds, and the surplus input
`past_key_values.1.key` is left verbatim. -/
theorem C9_witness :
    (["past_key_values.0.key", "past_key_values.1.key"].zip ["present.0.key"]).length
      = ["present.0.key"].length ∧
    ∃ m2 w, make_stateful (fun g _ => g) twoKvModel [0]
        ["past_key_values.0.key", "past_key_values.1.key"] ["present.0.key"]
        2 8 (some 3) = .ok (m2, w) ∧
      getNode m2 2 = some surplusKvNode :=
  C9_surplus_kv_names_silently_ignored (fun g _ => g) twoKvModel [0]
    ["past_key_values.0.key", "past_key_values.1.key"] ["present.0.key"] 2 8 3 2
    surplusKvNode "past_key_values.1.key"
    (by decide)
    (by
      intro pid hpid
      rcases List.mem_cons.mp hpid with rfl | hpid
      · exact ⟨_, rfl, by decide, by decide⟩
      · cases hpid)
    (by
      intro nm hnm
      rw [show (["past_key_values.0.key", "past_key_values.1.key"].zip
        ["present.0.key"]).map Prod.fst = ["past_key_values.0.key"] from rfl] at hnm
      rw [List.mem_singleton] at hnm
      subst hnm
      exact ⟨1, _, rfl, rfl, by decide⟩)
    (by decide) (by decide) rfl rfl (by decide) (by decide)

/-- The graph `exampleModel` after one run of the fuser with gather dim 5. -/
def exampleFusedG5 : Model × List Nat :=
  match fuse_cache_reorder exampleModel [0, 1] ["past_key_values.0.key"] 5 with
  | .ok p => p
  | .error _ => (exampleModel, [])

/-- The graph `exampleStateModel` after the initializer with batch dim 2. -/
def exampleInitBd2 : Model :=
  match build_state_initializer exampleStateModel 2 with
  | .ok g => g
  | .error _ => exampleStateModel

/-- Witness for C10 at concrete inputs: `outBeamModel` has no "input_ids",
so both functions fail; on `exampleModel` with gather dim 5 the beam
parameter's length is dimension 0 of `input_ids`; on `exampleStateModel`
with batch dim 2 the batch chain gathers index 0 of the shape of
`input_ids`. -/
theorem C10_witness :
    (∃ e, fuse_cache_reorder outBeamModel [] [] 5 = .error e) ∧
    build_state_initializer outBeamModel 2 = .error (.lookupFailed "input_ids") ∧
    (∃ bn, getNode exampleFusedG5.1 exampleModel.nodes.length = some bn ∧
      bn.shape = [.dyn 0] ∧ bn.ety = .i32) ∧
    (∃ iid nIds, findInput exampleStateModel "input_ids" = .ok iid ∧
      getNode exampleStateModel iid = some nIds ∧
      getNode exampleInitBd2 exampleStateModel.nodes.length
        = some (shapeOfNode iid nIds.shape.length) ∧
      getNode exampleInitBd2 (exampleStateModel.nodes.length + 1)
        = some (constVecNode 0) ∧
      getNode exampleInitBd2 (exampleStateModel.nodes.length + 2)
        = some (scalarConstNode 0) ∧
      getNode exampleInitBd2 (exampleStateModel.nodes.length + 3)
        = some (gatherNodeOf exampleStateModel.nodes.length
            (exampleStateModel.nodes.length + 1) (exampleStateModel.nodes.length + 2)
            [.fixed 1] .i64)) := by
  have h := C10_batch_read_from_axis_zero_of_input_ids
  refine ⟨h.1 outBeamModel [] [] 5 rfl, h.2.1 outBeamModel 2 rfl, ?_, ?_⟩
  · exact h.2.2.1 exampleModel [0, 1] ["past_key_values.0.key"] 5
      exampleFusedG5.1 exampleFusedG5.2 0
      { op := .param, args := [], shape := [.dyn 0, .dyn 0], ety := .i64,
        names := ["input_ids"] } (.dyn 0) rfl rfl rfl rfl
  · exact h.2.2.2 exampleStateModel 2 exampleInitBd2 rfl

/-- C3: on OpenVINO at or below 2023.2, `raise_if_openvino_is_too_old`
raises a ValueError carrying the detected version, and `patch_stateful`
propagates that error from its first statement — before any of the graph
work — so no transformed model is produced. -/
theorem C3_version_gate_blocks_old_openvino
    (tr : Model → List (String × String) → Model) (v : OVVersion)
    (model : HFModel) (g : Model)
    (h : is_openvino_version_le_2023_2 v = true) :
    raise_if_openvino_is_too_old v = .error (.unsupportedVersion v) ∧
    patch_stateful tr v model g = .error (.unsupportedVersion v) := by
  have hr : raise_if_openvino_is_too_old v = .error (.unsupportedVersion v) := by
    unfold raise_if_openvino_is_too_old
    rw [if_pos h]
  refine ⟨hr, ?_⟩
  unfold patch_stateful
  simp only [hr]

/-- A model configuration for the version-gate scenario. -/
def hfLlama : HFModel :=
  ⟨["past_key_values.0.key"], ["present.0.key"], "llama", 4⟩

/-- Witness for C3 at the boundary version 2023.2.0. -/
theorem C3_witness :
    is_openvino_version_le_2023_2 ⟨2023, 2, 0⟩ = true ∧
    raise_if_openvino_is_too_old ⟨2023, 2, 0⟩
      = .error (.unsupportedVersion ⟨2023, 2, 0⟩) ∧
    patch_stateful (fun g _ => g) ⟨2023, 2, 0⟩ hfLlama exampleModel
      = .error (.unsupportedVersion ⟨2023, 2, 0⟩) :=
  ⟨by decide, C3_version_gate_blocks_old_openvino (fun g _ => g) ⟨2023, 2, 0⟩
    hfLlama exampleModel (by decide)⟩

/-- C5: `patch_stateful` classifies as non-key-value exactly the inputs
none of whose names is a key-value input name; it uses batch dimension 1
for chatglm and 0 otherwise (also as the fuser's gather dimension), takes
`num_attention_heads` from the config only for bloom and 1 otherwise, and
always calls `make_stateful` with `num_beams_and_batch := none`. -/
theorem C5_patch_stateful_orchestration :
    (∀ (g : Model) (kvIn : List String) (pid : Nat),
      pid ∈ not_kv_of g kvIn ↔
        pid ∈ g.params ∧ ∀ nm ∈ portNames g pid, nm ∉ kvIn) ∧
    (∀ (tr : Model → List (String × String) → Model) (v : OVVersion)
        (model : HFModel) (g : Model),
      is_openvino_version_le_2023_2 v = false → model.model_type = "chatglm" →
        patch_stateful tr v model g =
          match fuse_cache_reorder g (not_kv_of g model.key_value_input_names)
              model.key_value_input_names 1 with
          | .error e => .error e
          | .ok p => make_stateful tr p.1 p.2 model.key_value_input_names
              model.key_value_output_names 1 1 none) ∧
    (∀ (tr : Model → List (String × String) → Model) (v : OVVersion)
        (model : HFModel) (g : Model),
      is_openvino_version_le_2023_2 v = false → model.model_type = "bloom" →
        patch_stateful tr v model g =
          match fuse_cache_reorder g (not_kv_of g model.key_value_input_names)
              model.key_value_input_names 0 with
          | .error e => .error e
          | .ok p => make_stateful tr p.1 p.2 model.key_value_input_names
              model.key_value_output_names 0 model.num_attention_heads none) ∧
    (∀ (tr : Model → List (String × String) → Model) (v : OVVersion)
        (model : HFModel) (g : Model),
      is_openvino_version_le_2023_2 v = false →
      model.model_type ≠ "chatglm" → model.model_type ≠ "bloom" →
        patch_stateful tr v model g =
          match fuse_cache_reorder g (not_kv_of g model.key_value_input_names)
              model.key_value_input_names 0 with
          | .error e => .error e
          | .ok p => make_stateful tr p.1 p.2 model.key_value_input_names
              model.key_value_output_names 0 1 none) := by
  refine ⟨?_, ?_, ?_, ?_⟩
  · intro g kvIn pid
    unfold not_kv_of
    rw [List.mem_filter]
    constructor
    · rintro ⟨hp, hb⟩
      refine ⟨hp, ?_⟩
      intro nm hnm hin
      have hb' : (portNames g pid).any (fun nm => kvIn.contains nm) = false := by
        simpa using hb
      have hfalse := List.any_eq_false.mp hb' nm hnm
      exact hfalse (List.elem_iff.mpr hin)
    · rintro ⟨hp, hall⟩
      refine ⟨hp, ?_⟩
      rw [Bool.not_eq_true']
      rw [List.any_eq_false]
      intro nm hnm hc
      exact hall nm hnm (List.elem_iff.mp hc)
  · intro tr v model g hv hmt
    have hr : raise_if_openvino_is_too_old v = .ok () := by
      unfold raise_if_openvino_is_too_old
      rw [if_neg (by simp [hv])]
    unfold patch_stateful
    simp only [hr, hmt]
    rfl
  · intro tr v model g hv hmt
    have hr : raise_if_openvino_is_too_old v = .ok () := by
      unfold raise_if_openvino_is_too_old
      rw [if_neg (by simp [hv])]
    unfold patch_stateful
    simp only [hr, hmt]
    rfl
  · intro tr v model g hv hmt1 hmt2
    have hr : raise_if_openvino_is_too_old v = .ok () := by
      unfold raise_if_openvino_is_too_old
      rw [if_neg (by simp [hv])]
    unfold patch_stateful
    simp only [hr, if_neg hmt1, if_neg hmt2]
    rfl

/-- A chatglm model configuration. -/
def hfChatglm : HFModel :=
  ⟨["past_key_values.0.key"], ["present.0.key"], "chatglm", 4⟩

/-- Witness for C5: the classification at a concrete input and the chatglm
dispatch at a recent version. -/
theorem C5_witness :
    (0 ∈ not_kv_of exampleModel ["past_key_values.0.key"] ↔
      0 ∈ exampleModel.params ∧
        ∀ nm ∈ portNames exampleModel 0, nm ∉ ["past_key_values.0.key"]) ∧
    (patch_stateful (fun g _ => g) ⟨2023, 3, 0⟩ hfChatglm exampleModel =
      match fuse_cache_reorder exampleModel
          (not_kv_of exampleModel ["past_key_values.0.key"])
          ["past_key_values.0.key"] 1 with
      | .error e => .error e
      | .ok p => make_stateful (fun g _ => g) p.1 p.2 ["past_key_values.0.key"]
          ["present.0.key"] 1 1 none) :=
  ⟨C5_patch_stateful_orchestration.1 exampleModel ["past_key_values.0.key"] 0,
   C5_patch_stateful_orchestration.2.1 (fun g _ => g) ⟨2023, 3, 0⟩
     hfChatglm exampleModel (by decide) rfl⟩

end Stateful
